import Mathlib

/-!
Verification of the t-linter template extraction and token projection
pipeline (crates/t-linter-core/src/parser.rs,
crates/t-linter-core/src/highlighter.rs, crates/t-linter-lsp/src/lib.rs).

The Rust code is shallowly embedded: strings are `List Char` (the sources
handled are ASCII, so Rust byte indices coincide with character indices),
tree-sitter nodes are records carrying kind, byte range and children, and
each Rust function is translated into an executable Lean definition of the
same name (modulo Lean naming rules).  Machine-integer subtraction on
`u32` values is modelled by `sub32` with an explicit wrap at `2 ^ 32`.
-/

/-! ## Basic string utilities (List Char model of Rust str operations) -/

abbrev Str := List Char

/-- Rust slice `s[a..b]` on byte indices (chars, in the ASCII model). -/
def sliceB (s : Str) (a b : Nat) : Str := (s.drop a).take (b - a)

/-- Number of `\x7b\x7d` sentinels, counted by the same non-overlapping
left-to-right scan the highlighter uses.  Since the two sentinel bytes
differ, this equals the number of substring occurrences. -/
def countSent : Str → Nat
  | '{' :: '}' :: rest => countSent rest + 1
  | _ :: rest => countSent rest
  | [] => 0

/-- Number of newline characters. -/
def countNl (s : Str) : Nat := s.count '\n'

/-- The escaped-brace collapsing loop of `extract_content_and_interpolations`:
`\x7b\x7b` becomes `\x7b` and `\x7d\x7d` becomes `\x7d`. -/
def collapse : Str → Str
  | '{' :: '{' :: rest => '{' :: collapse rest
  | '}' :: '}' :: rest => '}' :: collapse rest
  | c :: rest => c :: collapse rest
  | [] => []

/-- Rust `str::to_lowercase` (ASCII model). -/
def toLowerStr (s : Str) : Str := s.map Char.toLower

/-- Rust `str::ends_with`. -/
def endsWithL (s p : Str) : Bool := p.isSuffixOf s

/-- Rust `str::find(char)`: index of the first occurrence. -/
def findCharIdx (c : Char) : Str → Option Nat
  | [] => none
  | x :: xs => if x = c then some 0 else (findCharIdx c xs).map (· + 1)

/-- Rust `str::rfind(char)`: index of the last occurrence. -/
def rfindCharIdx (c : Char) (s : Str) : Option Nat :=
  (findCharIdx c s.reverse).map (fun i => s.length - 1 - i)

/-- Rust `str::split(char)`. -/
def splitOnChar (c : Char) : Str → List Str
  | [] => [[]]
  | x :: xs =>
    match splitOnChar c xs with
    | [] => [[]]
    | h :: t => if x = c then [] :: h :: t else (x :: h) :: t

/-- Whitespace test backing Rust `str::trim` (ASCII subset). -/
def isWs (c : Char) : Bool := c = ' ' || c = '\t' || c = '\n' || c = '\r'

/-- Rust `str::trim`. -/
def trimStr (s : Str) : Str := ((s.dropWhile isWs).reverse.dropWhile isWs).reverse

/-- Quote test used by `trim_matches(|c| c == quote1 || c == quote2)`. -/
def isQuote (c : Char) : Bool := c = '"' || c = '\''

/-- Rust `str::trim_matches` with the quote predicate. -/
def trimMatchesQ (s : Str) : Str :=
  ((s.dropWhile isQuote).reverse.dropWhile isQuote).reverse

/-- Association-list model of `HashMap`: `insert` prepends, `lookup` takes
the first (that is, most recent) binding, matching overwrite semantics. -/
def lookupA {α : Type} : List (Str × α) → Str → Option α
  | [], _ => none
  | (k, v) :: rest, key => if k = key then some v else lookupA rest key

/-- Rust `str::contains(&str)`: substring test. -/
def isInfixL (needle : Str) : Str → Bool
  | [] => needle.isEmpty
  | c :: rest => needle.isPrefixOf (c :: rest) || isInfixL needle rest

/-- Wrapping `u32` subtraction `a - b` (Rust release-mode semantics). -/
def sub32 (a b : Nat) : Nat := (a % 4294967296 + (4294967296 - b % 4294967296)) % 4294967296

/-! ## Data model (parser.rs) -/

/-- Source location, 1-based, as in `parser.rs::Location`. -/
structure Loc where
  start_line : Nat
  start_column : Nat
  end_line : Nat
  end_column : Nat
deriving DecidableEq, Repr

/-- An interpolation expression, as in `parser.rs::Expression`. -/
structure Expression where
  content : Str
  loc : Loc
deriving DecidableEq, Repr

/-- Flags, as in `parser.rs::TemplateStringFlags`. -/
structure TemplateStringFlags where
  is_template : Bool := false
  is_raw : Bool := false
  is_format : Bool := false
  is_triple : Bool := false
deriving DecidableEq, Repr

/-- A template record, as in `parser.rs::TemplateStringInfo`. -/
structure TemplateStringInfo where
  content : Str
  raw_content : Str
  variable_name : Option Str
  function_name : Option Str
  language : Option Str
  loc : Loc
  expressions : List Expression
  flags : TemplateStringFlags
deriving DecidableEq, Repr

/-- A child of an interpolation node (tree-sitter node: kind, byte range,
and start/end points). -/
structure SubNode where
  kind : String
  startByte : Nat
  endByte : Nat
  startRow : Nat
  startCol : Nat
  endRow : Nat
  endCol : Nat
deriving DecidableEq, Repr

/-- A direct child of a tree-sitter `string` node. -/
structure ChildNode where
  kind : String
  startByte : Nat
  endByte : Nat
  sub : List SubNode
deriving DecidableEq, Repr

/-! ## parser.rs: interior reconstruction -/

/-- Predicate on interpolation children selecting the expression node
(`extract_interpolation_expression`'s find condition). -/
def isExprChild (k : String) : Bool :=
  k ≠ "\x7b" && k ≠ "\x7d" && k ≠ "=" && k ≠ "format_specifier" && k ≠ "type_conversion"

/-- Embedding of `extract_interpolation_expression`: the first child of the
interpolation that is not a brace, `=`, format specifier or type
conversion. -/
def extract_interpolation_expression (source : Str) (node : ChildNode) : Option Expression :=
  match node.sub.find? (fun ch => isExprChild ch.kind) with
  | some ch =>
    some { content := sliceB source ch.startByte ch.endByte
           loc := { start_line := ch.startRow + 1, start_column := ch.startCol + 1
                    end_line := ch.endRow + 1, end_column := ch.endCol + 1 } }
  | none => none

/-- The between-children gap text pushed by `extract_content_and_interpolations`
when `last_end_byte > 0 && start_byte > last_end_byte`. -/
def gapPart (source : Str) (lastEnd startByte : Nat) : List Str :=
  if 0 < lastEnd ∧ lastEnd < startByte then [sliceB source lastEnd startByte] else []

/-- Loop body of `extract_content_and_interpolations`, accumulating the
content parts and the interpolation expressions while tracking
`last_end_byte`. -/
def extractAux (source : Str) : Nat → List ChildNode → List Str × List Expression
  | _, [] => ([], [])
  | lastEnd, c :: cs =>
    if c.kind = "string_content" then
      let g := gapPart source lastEnd c.startByte
      let txt := sliceB source c.startByte c.endByte
      let r := extractAux source c.endByte cs
      (g ++ [collapse txt] ++ r.1, r.2)
    else if c.kind = "interpolation" then
      let g := gapPart source lastEnd c.startByte
      let r := extractAux source c.endByte cs
      match extract_interpolation_expression source c with
      | some e => (g ++ [['{', '}']] ++ r.1, e :: r.2)
      | none => (g ++ [['{', '}']] ++ r.1, r.2)
    else if c.kind = "escape_interpolation" then
      let g := gapPart source lastEnd c.startByte
      let txt := sliceB source c.startByte c.endByte
      let p : List Str :=
        if txt = ['{', '{'] then [['{']] else if txt = ['}', '}'] then [['}']] else []
      let r := extractAux source c.endByte cs
      (g ++ p ++ r.1, r.2)
    else if c.kind = "string_start" ∨ c.kind = "string_end" then
      extractAux source c.endByte cs
    else
      let g := gapPart source lastEnd c.startByte
      let r := extractAux source c.endByte cs
      (g ++ r.1, r.2)

/-- Embedding of `extract_content_and_interpolations`: walk the string
node's children and reassemble the stripped content and the ordered
interpolation list. -/
def extract_content_and_interpolations (source : Str) (children : List ChildNode) :
    Str × List Expression :=
  let r := extractAux source 0 children
  (r.1.flatten, r.2)

/-- Embedding of `parse_string_flags`. -/
def parse_string_flags (start_text : Str) : TemplateStringFlags :=
  let p := toLowerStr start_text
  { is_template := true
    is_raw := p.contains 'r'
    is_format := true
    is_triple := endsWithL start_text ['\'', '\'', '\''] || endsWithL start_text ['"', '"', '"'] }

/-- The template filter of `find_strings_with_query`:
`start_text.starts_with('t') || start_text.starts_with('T')`. -/
def startsWithT (start_text : Str) : Bool :=
  match start_text with
  | c :: _ => c = 't' || c = 'T'
  | [] => false

/-! ## parser.rs: annotation nodes and language resolution -/

/-- A host-AST node as seen by `extract_language_from_annot` and the
context collector: kind, the field name it occupies in its parent (for
`child_by_field_name`), byte range, children. -/
inductive PNode where
  | node (kind : String) (fieldTag : Option String) (startByte endByte : Nat)
      (children : List PNode)

def PNode.kind : PNode → String
  | .node k _ _ _ _ => k

def PNode.fieldTag : PNode → Option String
  | .node _ f _ _ _ => f

def PNode.startByte : PNode → Nat
  | .node _ _ s _ _ => s

def PNode.endByte : PNode → Nat
  | .node _ _ _ e _ => e

def PNode.children : PNode → List PNode
  | .node _ _ _ _ cs => cs

/-- `Node::utf8_text` for a `PNode`. -/
def nodeText (source : Str) (n : PNode) : Str := sliceB source n.startByte n.endByte

/-- `Node::child_by_field_name`. -/
def childByField (n : PNode) (f : String) : Option PNode :=
  n.children.find? (fun c => c.fieldTag == some f)

/-- Word-character test for the regex class `\w`. -/
def isWordChar (c : Char) : Bool :=
  ('a' ≤ c && c ≤ 'z') || ('A' ≤ c && c ≤ 'Z') || ('0' ≤ c && c ≤ '9') || c = '_'

/-- Regex-class `\s` whitespace test (regex crate semantics). -/
def isRegexWs (c : Char) : Bool :=
  c = ' ' || c = '\t' || c = '\n' || c = '\r' || c = '\x0c' || c = '\x0b'

/-- Match a literal at the head of the input. -/
def expectLit (lit s : Str) : Option Str :=
  if lit.isPrefixOf s then some (s.drop lit.length) else none

/-- Try to match the pattern
`Annotated\s*\[\s*Template\s*,\s*["'](\w+)["']\s*]` at the head of `s`,
returning the captured word.  The pattern is deterministic: `\s*` and
`\w+` are greedy and their character classes are disjoint from what
follows, so no backtracking is needed. -/
def regexMatchAt (s : Str) : Option Str := do
  let s ← expectLit ("Annotated".data) s
  let s := s.dropWhile isRegexWs
  let s ← expectLit ['['] s
  let s := s.dropWhile isRegexWs
  let s ← expectLit ("Template".data) s
  let s := s.dropWhile isRegexWs
  let s ← expectLit [','] s
  let s := s.dropWhile isRegexWs
  match s with
  | q :: s =>
    if isQuote q then
      let w := s.takeWhile isWordChar
      let s := s.dropWhile isWordChar
      if w = [] then none
      else
        match s with
        | q2 :: s =>
          if isQuote q2 then
            let s := s.dropWhile isRegexWs
            match s with
            | ']' :: _ => some w
            | _ => none
          else none
        | [] => none
    else none
  | [] => none

/-- Leftmost match of the `Annotated[Template, "tag"]` regex anywhere in
the text (`Regex::captures` semantics for this anchored-free pattern). -/
def regexAnnotatedTemplate : Str → Option Str
  | [] => regexMatchAt []
  | c :: rest =>
    match regexMatchAt (c :: rest) with
    | some w => some w
    | none => regexAnnotatedTemplate rest

/-- Embedding of `extract_language_from_type_string`: the same regex run
over a recorded parameter-type string. -/
def extract_language_from_type_string (type_str : Str) : Option Str :=
  regexAnnotatedTemplate type_str

/-- The context the resolver builds per document
(`parser.rs::ModuleContext`).  `HashMap`s are modelled as association
lists with most-recent-first lookup. -/
structure ModuleContext where
  type_aliases : List (Str × Str) := []
  imports : List (Str × Str) := []
  function_signatures : List (Str × List (Nat × Str)) := []

/-- The `is_annotated` test of `extract_language_from_annot`:
the base name is literally `Annotated`, or resolves through imports to
`typing.Annotated` or anything ending in `.Annotated`. -/
def isAnnotatedName (ctx : ModuleContext) (name : Str) : Bool :=
  name = "Annotated".data ||
    (match lookupA ctx.imports name with
     | some v => v = "typing.Annotated".data || endsWithL v (".Annotated".data)
     | none => false)

/-- The `is_template` test: literally `Template`, or resolving through
imports to `string.templatelib.Template`, `templatelib.Template`, or
anything ending in `.Template`. -/
def isTemplateName (ctx : ModuleContext) (name : Str) : Bool :=
  name = "Template".data ||
    (match lookupA ctx.imports name with
     | some v =>
       v = "string.templatelib.Template".data || v = "templatelib.Template".data ||
         endsWithL v (".Template".data)
     | none => false)

/-- `text.split('.').last().unwrap_or(text)`. -/
def lastDotSegment (t : Str) : Str := ((splitOnChar '.' t).getLast?).getD t

/-- The loop over the slice children of an `Annotated` subscript: identifier
and attribute children set the found-Template flag, a string child returns
the quoted tag once the flag is set. -/
def sliceScan (source : Str) (ctx : ModuleContext) : List PNode → Bool → Option Str
  | [], _ => none
  | c :: cs, found =>
    if c.kind = "identifier" then
      sliceScan source ctx cs (isTemplateName ctx (nodeText source c))
    else if c.kind = "attribute" then
      sliceScan source ctx cs (isTemplateName ctx (lastDotSegment (nodeText source c)))
    else if c.kind = "string" then
      if found then some (trimMatchesQ (nodeText source c)) else sliceScan source ctx cs found
    else sliceScan source ctx cs found

/-- The textual `A[T, "tag"]` path of `extract_language_from_annot`,
taken when the candidate node has kind `type`: split the annotation text
at the brackets, split the bracket arguments on commas, and check the
`Annotated`/`Template` resolution of the first two slots. -/
def annotTextualPath (source : Str) (ctx : ModuleContext) (sub : PNode) : Option Str :=
  let text := nodeText source sub
  match findCharIdx '[' text with
  | none => none
  | some bracket_start =>
    let base_name := text.take bracket_start
    if isAnnotatedName ctx base_name then
      match rfindCharIdx ']' text with
      | none => none
      | some bracket_end =>
        let args := sliceB text (bracket_start + 1) bracket_end
        let parts := (splitOnChar ',' args).map trimStr
        if 2 ≤ parts.length then
          let template_part := parts.getD 0 []
          let lang_part := trimMatchesQ (parts.getD 1 [])
          if isTemplateName ctx template_part then some lang_part else none
        else none
    else none

/-- The subscript-node path of `extract_language_from_annot`: check the
`value` field against `Annotated`, then scan the `slice` field's children
for a `Template` identifier followed by a string tag. -/
def annotSubscriptPath (source : Str) (ctx : ModuleContext) (sub : PNode) : Option Str :=
  match childByField sub "value" with
  | none => none
  | some value_node =>
    if isAnnotatedName ctx (nodeText source value_node) then
      match childByField sub "slice" with
      | none => none
      | some slice_node => sliceScan source ctx slice_node.children false
    else none

/-- Embedding of `extract_language_from_annotation` (the Rust name; Lean
naming constraints force the shorter suffix): pick the subscript
candidate, try the textual or structural path, and fall back to the
`Annotated[Template, "tag"]` regex over the node text. -/
def extract_language_from_annot (source : Str) (ctx : ModuleContext) (node : PNode) :
    Option Str :=
  let subscript_node : Option PNode :=
    if node.kind = "subscript" then some node
    else if node.kind = "type" then
      let t := nodeText source node
      if t.contains '[' && t.contains ']' then some node
      else node.children.find? (fun c => c.kind == "subscript")
    else none
  let viaSubscript : Option Str :=
    match subscript_node with
    | none => none
    | some sub =>
      if sub.kind = "type" then annotTextualPath source ctx sub
      else annotSubscriptPath source ctx sub
  match viaSubscript with
  | some l => some l
  | none => regexAnnotatedTemplate (nodeText source node)

/-! ## parser.rs: context collection and the string query -/

/-- The name/value `type`-children scan in the type-alias-statement loop of
`collect_module_context`: the first `type` child whose text is not the
keyword becomes the name; once a name is set, any later `type` child
becomes the value. -/
def typeAliasNodes (source : Str) :
    List PNode → Option PNode → Option PNode → Option PNode × Option PNode
  | [], nm, vl => (nm, vl)
  | c :: cs, nm, vl =>
    if c.kind = "type" ∧ nm.isNone then
      if nodeText source c ≠ "type".data then typeAliasNodes source cs (some c) vl
      else typeAliasNodes source cs nm vl
    else if c.kind = "type" ∧ nm.isSome then
      typeAliasNodes source cs nm (some c)
    else typeAliasNodes source cs nm vl

/-- Process one `type_alias_statement` capture. -/
def applyAliasStmt (source : Str) (ctx : ModuleContext) (stmt : List PNode) : ModuleContext :=
  match typeAliasNodes source stmt none none with
  | (some nameNode, some valueNode) =>
    match extract_language_from_annot source ctx valueNode with
    | some lang => { ctx with type_aliases := (nodeText source nameNode, lang) :: ctx.type_aliases }
    | none => ctx
  | _ => ctx

/-- A `left/type/right` typed-assignment match from the alias query. -/
structure TypedAssign where
  nameNode : PNode
  typeNode : PNode
  valueNode : PNode

/-- Process one typed-assignment match: treated as an alias when the
annotation text contains `TypeAlias`. -/
def applyTypedAssign (source : Str) (ctx : ModuleContext) (ta : TypedAssign) : ModuleContext :=
  if isInfixL ("TypeAlias".data) (nodeText source ta.typeNode) then
    match extract_language_from_annot source ctx ta.valueNode with
    | some lang => { ctx with type_aliases := (nodeText source ta.nameNode, lang) :: ctx.type_aliases }
    | none => ctx
  else ctx

/-- An import match: optional module name, dotted import name, optional
alias (texts, as the collector reads them immediately). -/
structure ImportRow where
  moduleName : Option Str
  importName : Str
  importAlias : Option Str

/-- Process one import match: aliased imports key on the alias, plain ones
on the last dotted segment; the value prefixes the module name if any. -/
def applyImportRow (ctx : ModuleContext) (row : ImportRow) : ModuleContext :=
  let key :=
    match row.importAlias with
    | some alias0 => alias0
    | none => ((splitOnChar '.' row.importName).getLast?).getD row.importName
  let value :=
    match row.moduleName with
    | some m => m ++ '.' :: row.importName
    | none => row.importName
  { ctx with imports := (key, value) :: ctx.imports }

/-- A function-definition match: name text and the children of the
`parameters` node. -/
structure FuncRow where
  name : Str
  params : List PNode

/-- Embedding of `extract_function_parameters`: typed parameters record
their type text at the current position; typed, untyped and defaulted
parameters all advance the position counter. -/
def extract_function_parameters (source : Str) : List PNode → Nat → List (Nat × Str)
  | [], _ => []
  | c :: cs, position =>
    if c.kind = "typed_parameter" ∨ c.kind = "typed_default_parameter" then
      match childByField c "type" with
      | some tn => (position, nodeText source tn) :: extract_function_parameters source cs (position + 1)
      | none => extract_function_parameters source cs (position + 1)
    else if c.kind = "identifier" ∨ c.kind = "default_parameter" then
      extract_function_parameters source cs (position + 1)
    else extract_function_parameters source cs position

/-- Process one function-definition match. -/
def applyFuncRow (source : Str) (ctx : ModuleContext) (fr : FuncRow) : ModuleContext :=
  let pts := extract_function_parameters source fr.params 0
  if pts ≠ [] then
    { ctx with function_signatures := (fr.name, pts) :: ctx.function_signatures }
  else ctx

/-- An argument-list child as inspected by
`infer_language_from_function_call` (kind and node identity). -/
structure ArgChild where
  kind : String
  id : Nat
deriving DecidableEq, Repr

/-- The parent node of a matched string, when it is an argument list. -/
structure ParentNode where
  kind : String
  argChildren : List ArgChild

/-- The tree-sitter `string` node of a query match. -/
structure StrNode where
  id : Nat
  startByte : Nat
  endByte : Nat
  startRow : Nat
  startCol : Nat
  endRow : Nat
  endCol : Nat
  children : List ChildNode
  parent : Option ParentNode

/-- One match of the string query: the string node plus the optional
`var_name`, `type` and `func_name` captures. -/
structure StrMatch where
  node : StrNode
  varName : Option Str
  typeAnnot : Option PNode
  funcName : Option Str

/-- The signature scan inside `infer_language_from_function_call`: for each
recorded `(param_pos, type_name)` at the matched position, try the alias
table and then the `Annotated[...]` regex on the type text. -/
def sigScan (ctx : ModuleContext) : List (Nat × Str) → Nat → Option Str
  | [], _ => none
  | (ppos, tyname) :: rest, position =>
    if ppos = position then
      match lookupA ctx.type_aliases tyname with
      | some l => some l
      | none =>
        match extract_language_from_type_string tyname with
        | some l => some l
        | none => sigScan ctx rest position
    else sigScan ctx rest position

/-- Node kinds that advance the positional argument counter at a call
site. -/
def argKinds : List String :=
  ["string", "identifier", "call", "attribute", "integer", "float", "true", "false", "none"]

/-- The argument-list walk of `infer_language_from_function_call`. -/
def argScan (ctx : ModuleContext) (sigs : List (Nat × Str)) (sid : Nat) :
    List ArgChild → Nat → Option Str
  | [], _ => none
  | c :: cs, position =>
    if c.kind = "string" ∧ c.id = sid then sigScan ctx sigs position
    else if argKinds.contains c.kind then argScan ctx sigs sid cs (position + 1)
    else argScan ctx sigs sid cs position

/-- Embedding of `infer_language_from_function_call`. -/
def infer_language_from_function_call (ctx : ModuleContext) (funcName : Str)
    (n : StrNode) : Option Str :=
  match lookupA ctx.function_signatures funcName with
  | none => none
  | some sigs =>
    match n.parent with
    | some p => if p.kind = "argument_list" then argScan ctx sigs n.id p.argChildren 0 else none
    | none => none

/-- The language computation inside `extract_template_info`: annotation
first (structural resolution, then the raw alias-table lookup on the
annotation text), else call-site inference, else none. -/
def resolveLanguage (source : Str) (ctx : ModuleContext) (m : StrMatch) : Option Str :=
  match m.typeAnnot with
  | some tn =>
    match extract_language_from_annot source ctx tn with
    | some lang => some lang
    | none => lookupA ctx.type_aliases (nodeText source tn)
  | none =>
    match m.funcName with
    | some f => infer_language_from_function_call ctx f m.node
    | none => none

/-- Embedding of `extract_template_info` (fails only when the string node
has no children, in which case the caller has already skipped it). -/
def extract_template_info (source : Str) (ctx : ModuleContext) (m : StrMatch) :
    Option TemplateStringInfo :=
  match m.node.children.head? with
  | none => none
  | some string_start =>
    match m.node.children.getLast? with
    | none => none
    | some _string_end =>
      let start_text := sliceB source string_start.startByte string_start.endByte
      let ce := extract_content_and_interpolations source m.node.children
      some { content := ce.1
             raw_content := sliceB source m.node.startByte m.node.endByte
             variable_name := m.varName
             function_name := m.funcName
             language := resolveLanguage source ctx m
             loc := { start_line := m.node.startRow + 1, start_column := m.node.startCol + 1
                      end_line := m.node.endRow + 1, end_column := m.node.endCol + 1 }
             expressions := ce.2
             flags := parse_string_flags start_text }

/-- `child_by_field_name("string_start").or_else(|| node.child(0))`. -/
def stringStartChild (n : StrNode) : Option ChildNode :=
  match n.children.find? (fun c => c.kind == "string_start") with
  | some c => some c
  | none => n.children.head?

/-- Loop of `find_strings_with_query`: skip nodes already processed, look
up the opening delimiter, keep the literal only when its text starts with
`t` or `T`, and record the node id on success. -/
def findStringsAux (source : Str) (ctx : ModuleContext) (seen : List Nat) :
    List StrMatch → List TemplateStringInfo
  | [] => []
  | m :: ms =>
    if seen.contains m.node.id then findStringsAux source ctx seen ms
    else
      match stringStartChild m.node with
      | none => findStringsAux source ctx seen ms
      | some st =>
        if startsWithT (sliceB source st.startByte st.endByte) then
          match extract_template_info source ctx m with
          | some info => info :: findStringsAux source ctx (m.node.id :: seen) ms
          | none => findStringsAux source ctx (m.node.id :: seen) ms
        else findStringsAux source ctx seen ms

/-- Embedding of `find_strings_with_query`. -/
def find_strings_with_query (source : Str) (ctx : ModuleContext)
    (ms : List StrMatch) : List TemplateStringInfo :=
  findStringsAux source ctx [] ms

/-- The host parse result: the rows each context query yields plus the
string-query matches.  The tree-sitter host parse itself is external; the
pipeline is parametrised by it. -/
structure PyDoc where
  typeAliasStmts : List (List PNode)
  typedAssigns : List TypedAssign
  importRows : List ImportRow
  funcRows : List FuncRow
  stringMatches : List StrMatch

/-- Embedding of `collect_module_context`: a fresh context filled by the
three queries in source order (type aliases, `TypeAlias` assignments, then
imports and function definitions). -/
def collect_module_context (source : Str) (d : PyDoc) : ModuleContext :=
  let ctx0 : ModuleContext := {}
  let ctx1 := d.typeAliasStmts.foldl (fun ctx stmt => applyAliasStmt source ctx stmt) ctx0
  let ctx2 := d.typedAssigns.foldl (fun ctx ta => applyTypedAssign source ctx ta) ctx1
  let ctx3 := d.importRows.foldl applyImportRow ctx2
  d.funcRows.foldl (fun ctx fr => applyFuncRow source ctx fr) ctx3

/-- The mutable state of `TemplateStringParser` is the tree-sitter parser
handle, which is observably unchanged by `parse` (the stored tree is not
reused across calls: `parse(source, None)`). -/
structure TemplateStringParser where
  mk ::
deriving DecidableEq, Repr

/-- Embedding of `find_template_strings`: parse, build a fresh
`ModuleContext`, run the string query.  The parser state is returned
unchanged. -/
def find_template_strings (parse : Str → PyDoc) (p : TemplateStringParser)
    (source : Str) : TemplateStringParser × List TemplateStringInfo :=
  let d := parse source
  let ctx := collect_module_context source d
  (p, find_strings_with_query source ctx d.stringMatches)

/-! ## highlighter.rs: embedded highlighting -/

/-- A highlight span, as in `highlighter.rs::HighlightedRange`. -/
structure HighlightedRange where
  start_byte : Nat
  end_byte : Nat
  highlight_name : String
  highlight_index : Nat
deriving DecidableEq, Repr

/-- The fixed highlight-class vocabulary configured in
`TemplateHighlighter::new`. -/
def highlight_names : List String :=
  ["attribute", "comment", "constant", "constant.builtin", "constructor", "embedded",
   "function", "function.builtin", "keyword", "number", "operator", "property",
   "punctuation", "punctuation.bracket", "punctuation.delimiter", "punctuation.special",
   "string", "string.special", "tag", "type", "type.builtin", "variable",
   "variable.builtin", "variable.parameter"]

/-- Embedding of `get_highlight_index`: position in the vocabulary, with
`unwrap_or(0)`. -/
def get_highlight_index (name : String) : Nat :=
  match highlight_names.findIdx? (fun n => n == name) with
  | some i => i
  | none => 0

/-- A `tree_sitter_highlight` event, as consumed by `highlight_template`. -/
inductive HLEvent where
  | src (s e : Nat)
  | push (i : Nat)
  | pop
deriving DecidableEq, Repr

/-- The event loop of `highlight_template`: `HighlightStart` pushes onto
the active stack, `HighlightEnd` pops, and a `Source` event emits one
range per active class in stack order. -/
def processEvents : List HLEvent → List Nat → List HighlightedRange
  | [], _ => []
  | .src s e :: rest, active =>
    active.map (fun i =>
      { start_byte := s, end_byte := e, highlight_name := highlight_names.getD i "",
        highlight_index := i }) ++ processEvents rest active
  | .push i :: rest, active => processEvents rest (active ++ [i])
  | .pop :: rest, active => processEvents rest active.dropLast

/-- The sentinel scan at the end of `highlight_template`: every
non-overlapping `\x7b\x7d` occurrence (scanning left to right, resuming
two bytes past each hit) becomes a two-byte `variable.parameter` range. -/
def sentinelRanges : Str → Nat → List HighlightedRange
  | '{' :: '}' :: rest, i =>
    { start_byte := i, end_byte := i + 2, highlight_name := "variable.parameter",
      highlight_index := get_highlight_index "variable.parameter" } :: sentinelRanges rest (i + 2)
  | _ :: rest, i => sentinelRanges rest (i + 1)
  | [], _ => []

/-- The registered embedded-grammar keys
(`TemplateHighlighter::language_configs`); `sql` is feature-gated. -/
def langConfigKeys (sqlFeature : Bool) : List Str :=
  ["html".data, "css".data, "javascript".data, "js".data, "json".data] ++
    (if sqlFeature then ["sql".data] else [])

/-- The sort key comparison of `highlighted_ranges.sort_by_key(|r| r.start_byte)`. -/
def rangeLE (a b : HighlightedRange) : Bool := a.start_byte ≤ b.start_byte

/-- Embedding of `highlight_template`: fail when no language is set or the
language (lowercased) has no registered grammar; otherwise the embedded
grammar's event stream (external, hence a parameter) is folded into
ranges, the sentinel ranges are appended, and the result is stably sorted
by start byte (Rust `sort_by_key`, modelled by the stable `mergeSort`). -/
def highlight_template (sqlFeature : Bool) (events : List HLEvent)
    (t : TemplateStringInfo) : Except String (List HighlightedRange) :=
  match t.language with
  | none => .error "No language specified for template"
  | some lang =>
    if (langConfigKeys sqlFeature).contains (toLowerStr lang) then
      .ok ((processEvents events [] ++ sentinelRanges t.content 0).mergeSort rangeLE)
    else .error "Unsupported language"

/-- Embedding of `calculate_template_content_offset`: length of the known
opener prefixes, in the order the Rust code tests them. -/
def calculate_template_content_offset (raw_content : Str) : Nat :=
  if ("t\"\"\"".data).isPrefixOf raw_content ∨ ("t'''".data).isPrefixOf raw_content then 4
  else if ("tr\"\"\"".data).isPrefixOf raw_content ∨ ("tr'''".data).isPrefixOf raw_content then 5
  else if ("t\"".data).isPrefixOf raw_content ∨ ("t'".data).isPrefixOf raw_content then 2
  else if ("tr\"".data).isPrefixOf raw_content ∨ ("tr'".data).isPrefixOf raw_content then 3
  else 0

/-- Embedding of `token_type_to_index`. -/
def token_type_to_index (highlight_name : String) : Nat :=
  if highlight_name = "keyword" then 15
  else if highlight_name = "function" ∨ highlight_name = "function.builtin" then 12
  else if highlight_name = "variable" ∨ highlight_name = "variable.builtin" ∨
      highlight_name = "variable.parameter" then 8
  else if highlight_name = "string" ∨ highlight_name = "string.special" then 18
  else if highlight_name = "number" then 19
  else if highlight_name = "comment" then 17
  else if highlight_name = "type" ∨ highlight_name = "type.builtin" then 1
  else if highlight_name = "class" ∨ highlight_name = "constructor" then 2
  else if highlight_name = "property" then 9
  else if highlight_name = "tag" then 2
  else if highlight_name = "attribute" then 9
  else if highlight_name = "operator" then 21
  else if highlight_name = "punctuation" ∨ highlight_name = "punctuation.bracket" ∨
      highlight_name = "punctuation.delimiter" then 21
  else 8

/-! ## highlighter.rs: the two-pointer position walk -/

/-- The inner scan of `map_template_position_to_document` that advances
`expr_end` to the next `\x7d` (scanning the suffix of the raw interior
starting at index `e`). -/
def scanCloseGo : Str → Nat → Nat
  | [], e => e
  | c :: rest, e => if c = '}' then e else scanCloseGo rest (e + 1)

/-- `expr_end` scan from index `e` of `ab`. -/
def scanClose (ab : Str) (e : Nat) : Nat := scanCloseGo (ab.drop e) e

/-- One iteration of the two-pointer loop: on a sentinel in the stripped
content, skip the stripped pointer by two and the raw pointer past the
matching `\x7d`; otherwise advance both pointers by one. -/
def stepTA (tc ab : Str) (s : Nat × Nat) : Nat × Nat :=
  if s.1 + 1 < tc.length ∧ tc.getD s.1 ' ' = '{' ∧ tc.getD (s.1 + 1) ' ' = '}' then
    let a' :=
      if s.2 < ab.length ∧ ab.getD s.2 ' ' = '{' then
        let e := scanClose ab (s.2 + 1)
        if e < ab.length then e + 1 else e
      else s.2
    (s.1 + 2, a')
  else (s.1 + 1, s.2 + 1)

/-- The `while template_idx < pos && actual_idx < len` loop.  The fuel
argument only bounds the iteration count; since each iteration strictly
advances the stripped pointer, `pos` iterations always suffice (see the
termination theorem for claim C10). -/
def walkGo (tc ab : Str) (pos : Nat) : Nat → Nat × Nat → Nat × Nat
  | 0, s => s
  | fuel + 1, s =>
    if s.1 < pos ∧ s.2 < ab.length then walkGo tc ab pos fuel (stepTA tc ab s) else s

/-- Embedding of `map_template_position_to_document`: run the two-pointer
walk from `(0, 0)` and then convert the raw-interior index reached into a
document line/column by scanning the raw prefix for newlines, starting
from the template's start position shifted by the opener length. -/
def posScan : Str → Nat → Nat → Nat → Nat × Nat
  | _, 0, l, c => (l, c)
  | [], _ + 1, l, c => (l, c)
  | ch :: rest, n + 1, l, c =>
    if ch = '\n' then posScan rest n (l + 1) 0 else posScan rest n l (c + 1)

def map_template_position_to_document (template_content actual_content : Str)
    (position_in_template template_start_line template_start_col prefix_len : Nat) :
    Nat × Nat :=
  let s := walkGo template_content actual_content position_in_template
    position_in_template (0, 0)
  posScan actual_content s.2 template_start_line (template_start_col + prefix_len)

/-! ## highlighter.rs: token projection -/

/-- A pre-protocol token `(line, col, length, type index, modifiers)`
(the `(u32, u32, u32, u32, u32)` tuples of `to_lsp_tokens`). -/
structure Tok where
  line : Nat
  col : Nat
  len : Nat
  typ : Nat
  mods : Nat
deriving DecidableEq, Repr

/-- The tokens `to_lsp_tokens` emits first, one per recorded interpolation
expression, at the expression's absolute location. -/
def exprTokens (t : TemplateStringInfo) : List Tok :=
  t.expressions.map (fun e =>
    { line := e.loc.start_line - 1
      col := e.loc.start_column - 1
      len := e.loc.end_column - e.loc.start_column
      typ := token_type_to_index "variable.parameter"
      mods := 0 })

/-- The raw interior used by the walk:
`raw_content[prefix_len .. len - suffix_len]`. -/
def actualContent (t : TemplateStringInfo) : Str :=
  let prefix_len := calculate_template_content_offset t.raw_content
  let suffix_len := if t.flags.is_triple then 3 else 1
  sliceB t.raw_content prefix_len (t.raw_content.length - suffix_len)

/-- Per-range body of the `to_lsp_tokens` loop: `variable.parameter`
ranges are skipped, remaining ranges are mapped to document coordinates
and kept when their byte length is positive. -/
def mapRangeTok (t : TemplateStringInfo) (r : HighlightedRange) : Option Tok :=
  if r.highlight_name = "variable.parameter" then none
  else
    let prefix_len := calculate_template_content_offset t.raw_content
    let dc := map_template_position_to_document t.content (actualContent t) r.start_byte
      (t.loc.start_line - 1) (t.loc.start_column - 1) prefix_len
    let length := r.end_byte - r.start_byte
    if 0 < length then
      some { line := dc.1, col := dc.2, len := length,
             typ := token_type_to_index r.highlight_name, mods := 0 }
    else none

/-- The embedded-span token list of `to_lsp_tokens`. -/
def mappedSpanTokens (ranges : List HighlightedRange) (t : TemplateStringInfo) : List Tok :=
  ranges.filterMap (mapRangeTok t)

/-- Embedding of `to_lsp_tokens`: interpolation tokens first, then the
mapped embedded-grammar spans. -/
def to_lsp_tokens (ranges : List HighlightedRange) (t : TemplateStringInfo) : List Tok :=
  exprTokens t ++ mappedSpanTokens ranges t

/-! ## lsp/lib.rs: per-template token generation and delta encoding -/

/-- Rust `str::lines()` (splits on newline, strips a trailing carriage
return per line, and yields no final empty line). -/
def rustLines (s : Str) : List Str :=
  let ps := splitOnChar '\n' s
  let ps := match ps.getLast? with
    | some [] => ps.dropLast
    | _ => ps
  ps.map (fun l => match l.getLast? with
    | some '\r' => l.dropLast
    | _ => l)

/-- The `TOKEN_TYPE_MACRO` constant of lsp/lib.rs. -/
def TOKEN_TYPE_MACRO : Nat := 14

/-- The no-language branch of `generate_semantic_tokens`: a single macro
token for single-line templates, and first/interior/last per-line macro
tokens for multi-line ones. -/
def noLangTokens (text : Str) (t : TemplateStringInfo) : List Tok :=
  let start_line := t.loc.start_line - 1
  let start_col := t.loc.start_column - 1
  let end_line := t.loc.end_line - 1
  let end_col := t.loc.end_column - 1
  if start_line = end_line then
    [{ line := start_line, col := start_col, len := sub32 end_col start_col,
       typ := TOKEN_TYPE_MACRO, mods := 0 }]
  else
    let first_line := (rustLines text).getD start_line []
    { line := start_line, col := start_col, len := sub32 first_line.length start_col,
      typ := TOKEN_TYPE_MACRO, mods := 0 } ::
    (List.range' (start_line + 1) (end_line - (start_line + 1))).map (fun li =>
      { line := li, col := 0, len := ((rustLines text).getD li []).length,
        typ := TOKEN_TYPE_MACRO, mods := 0 }) ++
    [{ line := end_line, col := 0, len := end_col, typ := TOKEN_TYPE_MACRO, mods := 0 }]

/-- The tokens `generate_semantic_tokens` collects for one template: the
projected tokens on success, a single first-line macro token when
highlighting fails (in particular for an unsupported language), and the
no-language macro tokens otherwise. -/
def perTemplateTokens (sqlFeature : Bool) (events : List HLEvent) (text : Str)
    (t : TemplateStringInfo) : List Tok :=
  match t.language with
  | some _ =>
    match highlight_template sqlFeature events t with
    | .ok ranges => to_lsp_tokens ranges t
    | .error _ =>
      [{ line := t.loc.start_line - 1, col := t.loc.start_column - 1,
         len := sub32 (t.loc.end_column - 1) (t.loc.start_column - 1),
         typ := TOKEN_TYPE_MACRO, mods := 0 }]
  | none => noLangTokens text t

/-- The final sort comparator of `generate_semantic_tokens`:
`a.0.cmp(&b.0).then(a.1.cmp(&b.1))`. -/
def tokLE (a b : Tok) : Bool := a.line < b.line || (a.line = b.line && a.col ≤ b.col)

/-- `dedup_by` on full tuple equality (consecutive duplicates only). -/
def dedupConsec : List Tok → List Tok
  | [] => []
  | [a] => [a]
  | a :: b :: rest => if a = b then dedupConsec (b :: rest) else a :: dedupConsec (b :: rest)

/-- A delta-encoded semantic token (`SemanticToken` quintuple). -/
structure SemTok where
  delta_line : Nat
  delta_start : Nat
  length : Nat
  token_type : Nat
  modifiers : Nat
deriving DecidableEq, Repr

/-- Loop of `convert_to_semantic_tokens`, carrying `prev_line` and
`prev_start`. -/
def convertAux : Nat → Nat → List Tok → List SemTok
  | _, _, [] => []
  | prevLine, prevStart, t :: ts =>
    let dl := sub32 t.line prevLine
    let ds := if dl = 0 then sub32 t.col prevStart else t.col
    { delta_line := dl, delta_start := ds, length := t.len, token_type := t.typ,
      modifiers := t.mods } :: convertAux t.line t.col ts

/-- Embedding of `convert_to_semantic_tokens`. -/
def convert_to_semantic_tokens (tokens : List Tok) : List SemTok :=
  convertAux 0 0 tokens

/-- Tail of `generate_semantic_tokens`: sort all collected tokens by
(line, column), drop consecutive duplicates, delta-encode. -/
def generateSemanticTokens (sqlFeature : Bool) (text : Str)
    (tmplEvents : List (TemplateStringInfo × List HLEvent)) : List SemTok :=
  let all := (tmplEvents.map (fun p => perTemplateTokens sqlFeature p.2 text p.1)).flatten
  convert_to_semantic_tokens (dedupConsec (all.mergeSort tokLE))

/-- Cumulative decoder for delta-encoded tokens, written from the protocol
description in the spec (client-side semantics): each quintuple shifts the
previous absolute position by its deltas. -/
def decodeAux : Nat → Nat → List SemTok → List (Nat × Nat)
  | _, _, [] => []
  | pl, ps, s :: ss =>
    let l := pl + s.delta_line
    let c := if s.delta_line = 0 then ps + s.delta_start else s.delta_start
    (l, c) :: decodeAux l c ss

/-! ## Derived views and predicates used by the claim statements -/

/-- The single content part a child contributes in the gap-free case
(children of a parsed string literal tile their byte range, so the
between-children branch never fires). -/
def partOf (source : Str) (c : ChildNode) : Option Str :=
  if c.kind = "string_content" then some (collapse (sliceB source c.startByte c.endByte))
  else if c.kind = "interpolation" then some ['{', '}']
  else if c.kind = "escape_interpolation" then
    let txt := sliceB source c.startByte c.endByte
    if txt = ['{', '{'] then some ['{'] else if txt = ['}', '}'] then some ['}'] else none
  else none

/-- The expression a child contributes. -/
def exprOf (source : Str) (c : ChildNode) : Option Expression :=
  if c.kind = "interpolation" then extract_interpolation_expression source c else none

/-- The children tile the byte range starting at `b`: each child starts
where the previous one ended. -/
def tileB : Nat → List ChildNode → Bool
  | _, [] => true
  | b, c :: cs => (c.startByte = b) && (b ≤ c.endByte) && tileB c.endByte cs

/-- Tiling from the first child's own start byte (what tree-sitter
guarantees for the children of a `string` node). -/
def chainBytesB : List ChildNode → Bool
  | [] => true
  | c :: cs => tileB c.startByte (c :: cs)

/-- End byte of the last child of a tiled list (or `b` when empty). -/
def tileEnd (b : Nat) : List ChildNode → Nat
  | [] => b
  | c :: cs => tileEnd c.endByte cs

/-- Every `string_content` child is nonempty and brace-free (the
tree-sitter python grammar lexes braces only as interpolations or
escape-interpolation tokens). -/
def scOk (source : Str) (children : List ChildNode) : Bool :=
  children.all (fun c => c.kind ≠ "string_content" ||
    (let t := sliceB source c.startByte c.endByte
     !t.isEmpty && t.all (fun ch => ch ≠ '{' && ch ≠ '}')))

/-- Every interpolation child yields an expression (the grammar requires
an expression between the braces). -/
def interpOk (source : Str) (children : List ChildNode) : Bool :=
  children.all (fun c => c.kind ≠ "interpolation" ||
    (extract_interpolation_expression source c).isSome)

/-- No collapsed opening escape brace is immediately followed by a
collapsed closing escape brace in the reconstructed part list. -/
def noEscAdjacent : List Str → Bool
  | p :: q :: rest => !(p = ['{'] && q = ['}']) && noEscAdjacent (q :: rest)
  | _ => true

/-- Shape of a reconstructed content part: a nonempty brace-free literal
fragment, a sentinel, or a single collapsed escape brace. -/
def partClass (p : Str) : Bool :=
  (!p.isEmpty && p.all (fun ch => ch ≠ '{' && ch ≠ '}')) ||
    p = ['{', '}'] || p = ['{'] || p = ['}']

/-- Inner children of a string literal have one of the three interior
kinds. -/
def kindsOkInner (inner : List ChildNode) : Bool :=
  inner.all (fun c => c.kind = "string_content" || c.kind = "interpolation" ||
    c.kind = "escape_interpolation")

/-- Every escape-interpolation child is a doubled brace. -/
def escOk (source : Str) (children : List ChildNode) : Bool :=
  children.all (fun c => c.kind ≠ "escape_interpolation" ||
    (let t := sliceB source c.startByte c.endByte
     t = ['{', '{'] || t = ['}', '}']))

/-- No interpolation child spans a newline. -/
def noNlInterp (source : Str) (children : List ChildNode) : Bool :=
  children.all (fun c => c.kind ≠ "interpolation" ||
    countNl (sliceB source c.startByte c.endByte) = 0)

/-- The filter claimed by the spec for C2, written from the spec's words:
the opener's text before the quotes contains `t` case-insensitively. -/
def claimedTemplateFilter (start_text : Str) : Bool :=
  (toLowerStr (start_text.takeWhile (fun c => !isQuote c))).contains 't'

/-- Whether `find_strings_with_query` keeps a match: the opening
delimiter's text starts with `t` or `T`. -/
def passesFilter (source : Str) (m : StrMatch) : Bool :=
  match stringStartChild m.node with
  | some st => startsWithT (sliceB source st.startByte st.endByte)
  | none => false

/-- An annotation text of the claimed shape `A[T, "tag"]`. -/
def annText (A T tag : Str) : Str :=
  A ++ ['['] ++ T ++ [','] ++ [' '] ++ ['"'] ++ tag ++ ['"'] ++ [']']

/-- A single-line token covering exactly a template's source range. -/
def coversRange (tok : Tok) (l : Loc) : Prop :=
  tok.line = l.start_line - 1 ∧ tok.col = l.start_column - 1 ∧
    tok.line = l.end_line - 1 ∧ tok.col + tok.len = l.end_column - 1

/-- Non-decreasing document order on pre-protocol tokens. -/
abbrev tokLex (a b : Tok) : Prop :=
  a.line < b.line ∨ (a.line = b.line ∧ a.col ≤ b.col)

/-- Lexicographic order on line/column pairs. -/
abbrev pairLe (p q : Nat × Nat) : Prop := p.1 < q.1 ∨ (p.1 = q.1 ∧ p.2 ≤ q.2)

/-- The delta encoding exactly as the spec words it (C9): plain
differences from the previous token, with `delta_start` absolute on a
line change. -/
def specDeltaEncode : Nat → Nat → List Tok → List SemTok
  | _, _, [] => []
  | pl, ps, t :: ts =>
    { delta_line := t.line - pl
      delta_start := if t.line = pl then t.col - ps else t.col
      length := t.len, token_type := t.typ, modifiers := t.mods } ::
      specDeltaEncode t.line t.col ts

/-! ## Concrete instances used by witnesses and counterexamples -/

/-- Source `t"a\x7b\x7b\x7d\x7db"`: adjacent doubled-brace escapes. -/
def srcEsc : Str := ("t\"a{{}}b\"").data

/-- Children of the literal in `srcEsc`: opener, fragment `a`, the two
escapes, fragment `b`, closer. -/
def childrenEsc : List ChildNode :=
  [⟨"string_start", 0, 2, []⟩, ⟨"string_content", 2, 3, []⟩,
   ⟨"escape_interpolation", 3, 5, []⟩, ⟨"escape_interpolation", 5, 7, []⟩,
   ⟨"string_content", 7, 8, []⟩, ⟨"string_end", 8, 9, []⟩]

/-- Source `t"a\x7bx\x7db"`: one interpolation between two fragments. -/
def srcWit : Str := ("t\"a{x}b\"").data

def childrenWit : List ChildNode :=
  [⟨"string_start", 0, 2, []⟩, ⟨"string_content", 2, 3, []⟩,
   ⟨"interpolation", 3, 6, [⟨"\x7b", 3, 4, 0, 3, 0, 4⟩, ⟨"identifier", 4, 5, 0, 4, 0, 5⟩,
     ⟨"\x7d", 5, 6, 0, 5, 0, 6⟩]⟩,
   ⟨"string_content", 6, 7, []⟩, ⟨"string_end", 7, 8, []⟩]

/-- Source `rt"x"`: the opener contains `t` but does not start with it. -/
def srcRT : Str := ("rt\"x\"").data

def matchRT : StrMatch :=
  { node := { id := 1, startByte := 0, endByte := 5, startRow := 0, startCol := 0,
              endRow := 0, endCol := 5,
              children := [⟨"string_start", 0, 3, []⟩, ⟨"string_content", 3, 4, []⟩,
                           ⟨"string_end", 4, 5, []⟩],
              parent := none }
    varName := none, typeAnnot := none, funcName := none }

/-- Source `t"x" rt"x"`: one literal that passes the filter and one that
does not. -/
def srcTwo : Str := ("t\"x\" rt\"x\"").data

def matchesTwo : List StrMatch :=
  [{ node := { id := 1, startByte := 0, endByte := 4, startRow := 0, startCol := 0,
               endRow := 0, endCol := 4,
               children := [⟨"string_start", 0, 2, []⟩, ⟨"string_content", 2, 3, []⟩,
                            ⟨"string_end", 3, 4, []⟩],
               parent := none }
     varName := none, typeAnnot := none, funcName := none },
   { node := { id := 2, startByte := 5, endByte := 10, startRow := 0, startCol := 5,
               endRow := 0, endCol := 10,
               children := [⟨"string_start", 5, 8, []⟩, ⟨"string_content", 8, 9, []⟩,
                            ⟨"string_end", 9, 10, []⟩],
               parent := none }
     varName := none, typeAnnot := none, funcName := none }]

/-- A multi-line template with an unsupported language (for C4). -/
def tmplUnsup : TemplateStringInfo :=
  { content := ("abc").data, raw_content := ("t\"abc\"").data,
    variable_name := none, function_name := none, language := some (("xml").data),
    loc := ⟨1, 1, 3, 5⟩, expressions := [], flags := { is_template := true, is_format := true } }

/-- A supported-language template whose content has a sentinel (for C5). -/
def tmplSent : TemplateStringInfo :=
  { content := ("a{}").data, raw_content := ("t\"a{x}\"").data,
    variable_name := none, function_name := none, language := some (("html").data),
    loc := ⟨1, 1, 1, 9⟩, expressions := [⟨("x").data, ⟨1, 5, 1, 6⟩⟩],
    flags := { is_template := true, is_format := true } }

/-- A highlight range on the leading fragment of `tmplSent` (for C6). -/
def rangeFrag : HighlightedRange :=
  { start_byte := 0, end_byte := 1, highlight_name := "string", highlight_index := 16 }

/-- Source `t"""\x7ba\n+b\x7d"""`: an interpolation spanning a newline
(for C7). -/
def srcNlInterp : Str := ("t\"\"\"\x7ba\n+b\x7d\"\"\"").data

def childrenNlInterp : List ChildNode :=
  [⟨"string_start", 0, 4, []⟩,
   ⟨"interpolation", 4, 10, [⟨"\x7b", 4, 5, 0, 4, 0, 5⟩,
     ⟨"binary_operator", 5, 9, 0, 5, 1, 2⟩, ⟨"\x7d", 9, 10, 1, 2, 1, 3⟩]⟩,
   ⟨"string_end", 10, 13, []⟩]

/-- Source `t"""a\n\x7bx\x7d\nb"""`: a two-line template whose
interpolation stays on one line (for the C7 witness). -/
def srcNlWit : Str := ("t\"\"\"a\n{x}\nb\"\"\"").data

def childrenNlWit : List ChildNode :=
  [⟨"string_start", 0, 4, []⟩, ⟨"string_content", 4, 6, []⟩,
   ⟨"interpolation", 6, 9, [⟨"\x7b", 6, 7, 1, 0, 1, 1⟩, ⟨"identifier", 7, 8, 1, 1, 1, 2⟩,
     ⟨"\x7d", 8, 9, 1, 2, 1, 3⟩]⟩,
   ⟨"string_content", 9, 11, []⟩, ⟨"string_end", 11, 14, []⟩]

/-- A single-line template with an unsupported language (for the C4
witness). -/
def tmplUnsupSingle : TemplateStringInfo :=
  { content := ("abc").data, raw_content := ("t\"abc\"").data,
    variable_name := none, function_name := none, language := some (("xml").data),
    loc := ⟨2, 3, 2, 10⟩, expressions := [], flags := { is_template := true, is_format := true } }

/-! ## General lemmas -/

theorem sub32_eq {a b : Nat} (hba : b ≤ a) (ha : a < 4294967296) : sub32 a b = a - b := by
  unfold sub32
  omega

theorem countSent_cons_ne {c : Char} (h : c ≠ '{') (r : Str) :
    countSent (c :: r) = countSent r := by
  rw [countSent.eq_def]
  split
  · rename_i r2 heq
    injection heq with hc hr
    exact (h hc).elim
  · rename_i x r2 heq
    injection heq with hc hr
    subst hr
    rfl
  · rename_i heq
    exact absurd heq (by simp)

theorem countSent_sent_cons (r : Str) : countSent ('{' :: '}' :: r) = countSent r + 1 := rfl

theorem countSent_open_cons {x : Char} (h : x ≠ '}') (r : Str) :
    countSent ('{' :: x :: r) = countSent (x :: r) := by
  rw [countSent.eq_def]
  split
  · rename_i r2 heq
    injection heq with hc hr
    injection hr with hx _
    exact (h hx).elim
  · rename_i y r2 heq
    injection heq with hc hr
    subst hr
    rfl
  · rename_i heq
    exact absurd heq (by simp)

theorem countSent_append_nb {p : Str} (hp : ∀ c ∈ p, c ≠ '{') (r : Str) :
    countSent (p ++ r) = countSent r := by
  induction p with
  | nil => rfl
  | cons c p ih =>
    have hc : c ≠ '{' := hp c (List.mem_cons_self c p)
    rw [List.cons_append, countSent_cons_ne hc]
    exact ih (fun x hx => hp x (List.mem_cons_of_mem c hx))

theorem countNl_cons (c : Char) (l : Str) :
    countNl (c :: l) = countNl l + (if c = '\n' then 1 else 0) := by
  simp [countNl, List.count_cons, beq_iff_eq]

theorem collapse_id {t : Str} (h : ∀ c ∈ t, c ≠ '{' ∧ c ≠ '}') : collapse t = t := by
  induction t using collapse.induct with
  | case1 rest ih => exact ((h '{' (List.mem_cons_self _ _)).1 rfl).elim
  | case2 rest ih => exact ((h '}' (List.mem_cons_self _ _)).2 rfl).elim
  | case3 c rest hg1 hg2 ih =>
    rw [collapse.eq_def]
    split
    · rename_i r2 heq
      injection heq with hc hr
      subst hc
      exact ((h '{' (List.mem_cons_self _ _)).1 rfl).elim
    · rename_i r2 heq
      injection heq with hc hr
      subst hc
      exact ((h '}' (List.mem_cons_self _ _)).2 rfl).elim
    · rename_i c2 r2 hg1' hg2' heq
      injection heq with hc hr
      subst hc hr
      rw [ih (fun x hx => h x (List.mem_cons_of_mem _ hx))]
    · rename_i heq
      exact absurd heq (by simp)
  | case4 => rfl

theorem collapse_countNl (t : Str) : countNl (collapse t) = countNl t := by
  induction t using collapse.induct with
  | case1 rest ih =>
    show countNl ('{' :: collapse rest) = countNl ('{' :: '{' :: rest)
    simp [countNl_cons, ih]
  | case2 rest ih =>
    show countNl ('}' :: collapse rest) = countNl ('}' :: '}' :: rest)
    simp [countNl_cons, ih]
  | case3 c rest hg1 hg2 ih =>
    rw [collapse.eq_def]
    split
    · rename_i r2 heq
      injection heq with hc hr
      subst hc
      exact absurd hr (fun hh => hg1 r2 rfl hh)
    · rename_i r2 heq
      injection heq with hc hr
      subst hc
      exact absurd hr (fun hh => hg2 r2 rfl hh)
    · rename_i c2 r2 hg1' hg2' heq
      injection heq with hc hr
      subst hc hr
      simp [countNl_cons, ih]
    · rename_i heq
      exact absurd heq (by simp)
  | case4 => rfl

theorem extractAux_gapFree (source : Str) (cs : List ChildNode) :
    ∀ b lastEnd, tileB b cs = true → (lastEnd = 0 ∨ b ≤ lastEnd) →
    extractAux source lastEnd cs = (cs.filterMap (partOf source), cs.filterMap (exprOf source)) := by
  induction cs with
  | nil =>
    intro b lastEnd _ _
    rfl
  | cons c cs ih =>
    intro b lastEnd htile hle
    simp only [tileB, Bool.and_eq_true, decide_eq_true_eq] at htile
    obtain ⟨⟨hstart, hbe⟩, htile'⟩ := htile
    have hgap : gapPart source lastEnd c.startByte = [] := by
      unfold gapPart
      rw [if_neg]
      rintro ⟨hg1, hg2⟩
      rcases hle with h | h
      · omega
      · omega
    have ihc := ih c.endByte c.endByte htile' (Or.inr le_rfl)
    simp only [extractAux]
    by_cases h1 : c.kind = "string_content"
    · simp only [if_pos h1, hgap, ihc]
      simp [partOf, exprOf, h1]
    · by_cases h2 : c.kind = "interpolation"
      · simp only [if_neg h1, if_pos h2, hgap, ihc]
        cases he : extract_interpolation_expression source c with
        | some e => simp [partOf, exprOf, h1, h2, he]
        | none => simp [partOf, exprOf, h1, h2, he]
      · by_cases h3 : c.kind = "escape_interpolation"
        · simp only [if_neg h1, if_neg h2, if_pos h3, hgap, ihc]
          by_cases h4 : sliceB source c.startByte c.endByte = ['{', '{']
          · simp [partOf, exprOf, h1, h2, h3, h4]
          · by_cases h5 : sliceB source c.startByte c.endByte = ['}', '}']
            · simp [partOf, exprOf, h1, h2, h3, h4, h5]
            · simp [partOf, exprOf, h1, h2, h3, h4, h5]
        · by_cases h4 : c.kind = "string_start" ∨ c.kind = "string_end"
          · simp only [if_neg h1, if_neg h2, if_neg h3, if_pos h4, ihc]
            simp [partOf, exprOf, h1, h2, h3]
          · simp only [if_neg h1, if_neg h2, if_neg h3, if_neg h4, hgap, ihc]
            simp [partOf, exprOf, h1, h2, h3]

theorem noEscAdjacent_tail {p : Str} {ps : List Str}
    (h : noEscAdjacent (p :: ps) = true) : noEscAdjacent ps = true := by
  cases ps with
  | nil => rfl
  | cons q ps' =>
    simp only [noEscAdjacent, Bool.and_eq_true] at h
    exact h.2

theorem countSent_flatten_parts (ps : List Str) (hcls : ps.all partClass = true)
    (hadj : noEscAdjacent ps = true) :
    countSent ps.flatten = ps.countP (fun p => p == ['{', '}']) := by
  induction ps with
  | nil => rfl
  | cons p ps ih =>
    simp only [List.all_cons, Bool.and_eq_true] at hcls
    obtain ⟨hp, hcls'⟩ := hcls
    have hadj' := noEscAdjacent_tail hadj
    simp only [partClass, Bool.or_eq_true, Bool.and_eq_true, decide_eq_true_eq,
      Bool.not_eq_true', List.isEmpty_eq_false, List.all_eq_true] at hp
    rcases hp with ((⟨hne, hnb⟩ | hsent) | hopen) | hclose
    · have hnoOpen : ∀ ch ∈ p, ch ≠ '{' := by
        intro ch hch
        have h2 := hnb ch hch
        simp only [Bool.and_eq_true, decide_eq_true_eq] at h2
        exact h2.1
      have hnotSent : (p == ['{', '}']) = false := by
        rcases p with _ | ⟨d, p'⟩
        · exact absurd rfl hne
        · by_contra hcon
          simp only [Bool.not_eq_false, beq_iff_eq] at hcon
          have hd : d = '{' := by injection hcon
          exact hnoOpen d (List.mem_cons_self _ _) hd
      simp only [List.flatten_cons]
      rw [countSent_append_nb hnoOpen, ih hcls' hadj', List.countP_cons, hnotSent]
      simp
    · subst hsent
      simp only [List.flatten_cons, List.cons_append, List.nil_append]
      rw [countSent_sent_cons, ih hcls' hadj', List.countP_cons]
      simp
    · subst hopen
      cases ps with
      | nil => decide
      | cons q ps' =>
        have hqne : q ≠ ['}'] := by
          intro hcon
          subst hcon
          simp [noEscAdjacent] at hadj
        have ihq := ih hcls' hadj'
        simp only [List.all_cons, Bool.and_eq_true] at hcls'
        obtain ⟨hq, hcls''⟩ := hcls'
        simp only [partClass, Bool.or_eq_true, Bool.and_eq_true, decide_eq_true_eq,
          Bool.not_eq_true', List.isEmpty_eq_false, List.all_eq_true] at hq
        simp only [List.flatten_cons, List.singleton_append, List.cons_append,
          List.nil_append] at ihq ⊢
        rcases hq with ((⟨hqn, hqb⟩ | hq1) | hq2) | hq3
        · rcases q with _ | ⟨d, q'⟩
          · exact absurd rfl hqn
          · have hd : d ≠ '}' := by
              have h2 := hqb d (List.mem_cons_self _ _)
              simp only [Bool.and_eq_true, decide_eq_true_eq] at h2
              exact h2.2
            simp only [List.cons_append] at ihq ⊢
            rw [countSent_open_cons hd, ihq]
            conv_rhs => rw [List.countP_cons]
            simp
        · subst hq1
          simp only [List.cons_append] at ihq ⊢
          rw [countSent_open_cons (by simp), ihq]
          conv_rhs => rw [List.countP_cons]
          simp
        · subst hq2
          simp only [List.cons_append] at ihq ⊢
          rw [countSent_open_cons (by simp), ihq]
          conv_rhs => rw [List.countP_cons]
          simp
        · exact (hqne hq3).elim
    · subst hclose
      simp only [List.flatten_cons, List.singleton_append]
      rw [countSent_cons_ne (by simp), ih hcls' hadj', List.countP_cons]
      simp

theorem parts_class_of (source : Str) (children : List ChildNode)
    (hsc : scOk source children = true) :
    (children.filterMap (partOf source)).all partClass = true := by
  induction children with
  | nil => rfl
  | cons c cs ih =>
    simp only [scOk, List.all_cons, Bool.and_eq_true] at hsc
    obtain ⟨hc, hcs⟩ := hsc
    have ih' := ih (by simpa [scOk] using hcs)
    rw [List.filterMap_cons]
    cases hp : partOf source c with
    | none => simpa using ih'
    | some p =>
      simp only [List.all_cons, Bool.and_eq_true]
      refine ⟨?_, ih'⟩
      unfold partOf at hp
      by_cases h1 : c.kind = "string_content"
      · rw [if_pos h1] at hp
        rw [h1] at hc
        simp only [ne_eq, decide_not, not_true_eq_false, decide_False, Bool.false_or,
          Bool.and_eq_true, Bool.not_eq_true', List.isEmpty_eq_false, List.all_eq_true,
          Bool.not_eq_true, decide_eq_false_iff_not] at hc
        obtain ⟨hne, hnb⟩ := hc
        injection hp with hpe
        have hid : collapse (sliceB source c.startByte c.endByte) =
            sliceB source c.startByte c.endByte := collapse_id (fun x hx => hnb x hx)
        rw [← hpe, hid]
        simp only [partClass, Bool.or_eq_true, Bool.and_eq_true, Bool.not_eq_true',
          List.isEmpty_eq_false, List.all_eq_true]
        refine Or.inl (Or.inl (Or.inl ⟨hne, fun x hx => ?_⟩))
        have h2 := hnb x hx
        simp [h2.1, h2.2]
      · rw [if_neg h1] at hp
        by_cases h2 : c.kind = "interpolation"
        · rw [if_pos h2] at hp
          injection hp with hpe
          rw [← hpe]
          decide
        · rw [if_neg h2] at hp
          by_cases h3 : c.kind = "escape_interpolation"
          · rw [if_pos h3] at hp
            by_cases h4 : sliceB source c.startByte c.endByte = ['{', '{']
            · simp only [if_pos h4] at hp
              injection hp with hpe
              rw [← hpe]
              decide
            · by_cases h5 : sliceB source c.startByte c.endByte = ['}', '}']
              · simp only [if_neg h4, if_pos h5] at hp
                injection hp with hpe
                rw [← hpe]
                decide
              · simp [if_neg h4, if_neg h5] at hp
          · rw [if_neg h3] at hp
            exact absurd hp (by simp)

theorem countP_parts_eq_exprs (source : Str) (children : List ChildNode)
    (hsc : scOk source children = true) (hin : interpOk source children = true) :
    (children.filterMap (partOf source)).countP (fun p => p == ['{', '}']) =
      (children.filterMap (exprOf source)).length := by
  induction children with
  | nil => rfl
  | cons c cs ih =>
    simp only [scOk, List.all_cons, Bool.and_eq_true] at hsc
    obtain ⟨hc, hcs⟩ := hsc
    simp only [interpOk, List.all_cons, Bool.and_eq_true] at hin
    obtain ⟨hi, his⟩ := hin
    have ih' := ih (by simpa [scOk] using hcs) (by simpa [interpOk] using his)
    rw [List.filterMap_cons, List.filterMap_cons]
    by_cases h2 : c.kind = "interpolation"
    · rw [h2] at hi
      simp only [ne_eq, decide_not, not_true_eq_false, decide_False, Bool.false_or,
        Bool.not_false] at hi
      obtain ⟨e, he⟩ := Option.isSome_iff_exists.mp hi
      have hpo : partOf source c = some ['{', '}'] := by
        unfold partOf
        rw [if_neg (by rw [h2]; decide), if_pos h2]
      have heo : exprOf source c = some e := by
        unfold exprOf
        rw [if_pos h2, he]
      rw [hpo, heo]
      simp only [List.countP_cons, List.length_cons]
      rw [ih']
      simp
    · have heo : exprOf source c = none := by
        unfold exprOf
        rw [if_neg h2]
      rw [heo]
      by_cases h1 : c.kind = "string_content"
      · have hpo : partOf source c =
            some (collapse (sliceB source c.startByte c.endByte)) := by
          unfold partOf
          rw [if_pos h1]
        rw [h1] at hc
        simp only [ne_eq, decide_not, not_true_eq_false, decide_False, Bool.false_or,
          Bool.and_eq_true, Bool.not_eq_true', List.isEmpty_eq_false, List.all_eq_true,
          Bool.not_eq_true, decide_eq_false_iff_not] at hc
        obtain ⟨hne, hnb⟩ := hc
        have hid : collapse (sliceB source c.startByte c.endByte) =
            sliceB source c.startByte c.endByte := collapse_id (fun x hx => hnb x hx)
        rw [hpo, hid]
        rw [List.countP_cons]
        have hns : (sliceB source c.startByte c.endByte == ['{', '}']) = false := by
          by_contra hcon
          simp only [Bool.not_eq_false, beq_iff_eq] at hcon
          have hmem : '{' ∈ sliceB source c.startByte c.endByte := by
            rw [hcon]; simp
          exact (hnb '{' hmem).1 rfl
        rw [hns]
        simpa using ih'
      · by_cases h3 : c.kind = "escape_interpolation"
        · have : partOf source c =
              (let txt := sliceB source c.startByte c.endByte
               if txt = ['{', '{'] then some ['{'] else
                 if txt = ['}', '}'] then some ['}'] else none) := by
            unfold partOf
            rw [if_neg h1, if_neg h2, if_pos h3]
          rw [this]
          by_cases h4 : sliceB source c.startByte c.endByte = ['{', '{']
          · simp only [if_pos h4]
            rw [List.countP_cons]
            simpa using ih'
          · by_cases h5 : sliceB source c.startByte c.endByte = ['}', '}']
            · simp only [if_neg h4, if_pos h5]
              rw [List.countP_cons]
              simpa using ih'
            · simp only [if_neg h4, if_neg h5]
              exact ih'
        · have : partOf source c = none := by
            unfold partOf
            rw [if_neg h1, if_neg h2, if_neg h3]
          rw [this]
          exact ih'

theorem extract_eq_filterMap (source : Str) (children : List ChildNode)
    (hchain : chainBytesB children = true) :
    extract_content_and_interpolations source children =
      ((children.filterMap (partOf source)).flatten, children.filterMap (exprOf source)) := by
  cases children with
  | nil => rfl
  | cons c cs =>
    unfold extract_content_and_interpolations
    rw [extractAux_gapFree source (c :: cs) c.startByte 0
      (by simpa [chainBytesB] using hchain) (Or.inl rfl)]

theorem countNl_flatten (l : List Str) : countNl l.flatten = (l.map countNl).sum := by
  induction l with
  | nil => rfl
  | cons a l ih =>
    simp only [List.flatten_cons, List.map_cons, List.sum_cons, countNl,
      List.count_append] at *
    omega

theorem tileEnd_ge (cs : List ChildNode) : ∀ b, tileB b cs = true → b ≤ tileEnd b cs := by
  induction cs with
  | nil => intro b _; exact le_rfl
  | cons c cs ih =>
    intro b ht
    simp only [tileB, Bool.and_eq_true, decide_eq_true_eq] at ht
    obtain ⟨⟨h1, h2⟩, ht'⟩ := ht
    exact le_trans h2 (ih c.endByte ht')

theorem slice_split (s : Str) {a b c : Nat} (hab : a ≤ b) (hbc : b ≤ c) :
    sliceB s a c = sliceB s a b ++ sliceB s b c := by
  unfold sliceB
  have he : c - a = (b - a) + (c - b) := by omega
  rw [he, List.take_add]
  congr 2
  rw [List.drop_drop]
  congr 1
  omega

theorem slice_tile (source : Str) (cs : List ChildNode) :
    ∀ b, tileB b cs = true →
      sliceB source b (tileEnd b cs) =
        (cs.map (fun c => sliceB source c.startByte c.endByte)).flatten := by
  induction cs with
  | nil =>
    intro b _
    simp [sliceB, tileEnd, Nat.sub_self]
  | cons c cs ih =>
    intro b ht
    simp only [tileB, Bool.and_eq_true, decide_eq_true_eq] at ht
    obtain ⟨⟨h1, h2⟩, ht'⟩ := ht
    have hge : c.endByte ≤ tileEnd c.endByte cs := tileEnd_ge cs c.endByte ht'
    have hstep : tileEnd b (c :: cs) = tileEnd c.endByte cs := rfl
    rw [hstep, slice_split source h2 hge, List.map_cons, List.flatten_cons,
      ih c.endByte ht', h1]

theorem tile_append_single (cs : List ChildNode) (e : ChildNode) :
    ∀ b, tileB b (cs ++ [e]) = true → tileB b cs = true ∧ e.startByte = tileEnd b cs := by
  induction cs with
  | nil =>
    intro b ht
    simp only [List.nil_append, tileB, Bool.and_eq_true, decide_eq_true_eq] at ht
    exact ⟨rfl, ht.1.1⟩
  | cons c cs ih =>
    intro b ht
    simp only [List.cons_append, tileB, Bool.and_eq_true, decide_eq_true_eq] at ht
    obtain ⟨⟨h1, h2⟩, ht'⟩ := ht
    obtain ⟨ha, hb⟩ := ih c.endByte ht'
    refine ⟨?_, hb⟩
    simp only [tileB, Bool.and_eq_true, decide_eq_true_eq]
    exact ⟨⟨h1, h2⟩, ha⟩

theorem countNl_parts (source : Str) (inner : List ChildNode)
    (hk : kindsOkInner inner = true) (hesc : escOk source inner = true)
    (hnl : noNlInterp source inner = true) :
    ((inner.filterMap (partOf source)).map countNl).sum =
      ((inner.map (fun c => sliceB source c.startByte c.endByte)).map countNl).sum := by
  induction inner with
  | nil => rfl
  | cons c cs ih =>
    simp only [kindsOkInner, List.all_cons, Bool.and_eq_true] at hk
    obtain ⟨hkc, hks⟩ := hk
    simp only [escOk, List.all_cons, Bool.and_eq_true] at hesc
    obtain ⟨hec, hes⟩ := hesc
    simp only [noNlInterp, List.all_cons, Bool.and_eq_true] at hnl
    obtain ⟨hnc, hns⟩ := hnl
    have ih' := ih (by simpa [kindsOkInner] using hks) (by simpa [escOk] using hes)
      (by simpa [noNlInterp] using hns)
    rw [List.filterMap_cons, List.map_cons, List.map_cons, List.sum_cons]
    simp only [Bool.or_eq_true, decide_eq_true_eq] at hkc
    rcases hkc with (h1 | h2) | h3
    · have hpo : partOf source c =
          some (collapse (sliceB source c.startByte c.endByte)) := by
        unfold partOf
        rw [if_pos h1]
      rw [hpo, List.map_cons, List.sum_cons, collapse_countNl, ih']
    · have hpo : partOf source c = some ['{', '}'] := by
        unfold partOf
        rw [if_neg (by rw [h2]; decide), if_pos h2]
      have hz : countNl (sliceB source c.startByte c.endByte) = 0 := by
        rw [h2] at hnc
        simpa [decide_not] using hnc
      rw [hpo, List.map_cons, List.sum_cons, hz, ih']
      rfl
    · rw [h3] at hec
      simp only [ne_eq, decide_not, not_true_eq_false, decide_False, Bool.false_or,
        Bool.or_eq_true, decide_eq_true_eq, Bool.not_false] at hec
      rcases hec with h4 | h5
      · have hpo : partOf source c = some ['{'] := by
          unfold partOf
          rw [if_neg (by rw [h3]; decide), if_neg (by rw [h3]; decide), if_pos h3]
          simp only [if_pos h4]
        rw [hpo, List.map_cons, List.sum_cons, h4, ih']
        rfl
      · have hpo : partOf source c = some ['}'] := by
          unfold partOf
          rw [if_neg (by rw [h3]; decide), if_neg (by rw [h3]; decide), if_pos h3]
          have hne : sliceB source c.startByte c.endByte ≠ ['{', '{'] := by
            rw [h5]; decide
          simp only [if_neg hne, if_pos h5]
        rw [hpo, List.map_cons, List.sum_cons, h5, ih']
        rfl

/-! ## Claim C1 -/

/-- C1 (amended): for every template record extracted from well-formed
string-node children (tiled byte ranges, brace-free nonempty literal
fragments, expressions inside every interpolation), the number of
sentinels in the stripped content equals the number of interpolations,
PROVIDED no collapsed `\x7b\x7b` escape brace is immediately followed by
a collapsed `\x7d\x7d` escape brace.  Without that proviso the claim is
false: adjacent doubled-brace escapes collapse to a sentinel with no
interpolation (see the counterexample). -/
theorem C1_sentinel_count (source : Str) (children : List ChildNode)
    (hchain : chainBytesB children = true)
    (hsc : scOk source children = true)
    (hin : interpOk source children = true)
    (hadj : noEscAdjacent (children.filterMap (partOf source)) = true) :
    countSent (extract_content_and_interpolations source children).1 =
      (extract_content_and_interpolations source children).2.length := by
  rw [extract_eq_filterMap source children hchain]
  dsimp only
  rw [countSent_flatten_parts _ (parts_class_of source children hsc) hadj]
  exact countP_parts_eq_exprs source children hsc hin

/-- C1 witness: the template `t"a\x7bx\x7db"` has one sentinel and one
interpolation. -/
theorem C1_sentinel_count_witness :
    countSent (extract_content_and_interpolations srcWit childrenWit).1 =
      (extract_content_and_interpolations srcWit childrenWit).2.length :=
  C1_sentinel_count srcWit childrenWit (by decide) (by decide) (by decide) (by decide)

/-- C1 counterexample: on `t"a\x7b\x7b\x7d\x7db"` the stripped content is
`a\x7b\x7db` — it contains one sentinel formed by the collapsed escapes —
while the interpolation list is empty, refuting the claim as stated. -/
theorem C1_sentinel_count_cex :
    countSent (extract_content_and_interpolations srcEsc childrenEsc).1 = 1 ∧
      (extract_content_and_interpolations srcEsc childrenEsc).2.length = 0 ∧
      countSent (extract_content_and_interpolations srcEsc childrenEsc).1 ≠
        (extract_content_and_interpolations srcEsc childrenEsc).2.length := by
  decide

/-! ## Claim C7 -/

/-- C7 (amended): for a template whose children are well formed (tiled,
interior kinds only, doubled-brace escapes) the stripped content has the
same number of newlines as the raw interior (the raw literal minus the
opener and the closing quotes), PROVIDED no interpolation spans a
newline.  An interpolation that contains a newline loses it on the
stripped side (see the counterexample). -/
theorem C7_newline_count (source : Str) (s0 se : ChildNode) (inner : List ChildNode)
    (hs0 : s0.kind = "string_start") (hse : se.kind = "string_end")
    (hchain : chainBytesB (s0 :: inner ++ [se]) = true)
    (hk : kindsOkInner inner = true)
    (hesc : escOk source inner = true)
    (hnl : noNlInterp source inner = true) :
    countNl (extract_content_and_interpolations source (s0 :: inner ++ [se])).1 =
      countNl (sliceB source s0.endByte se.startByte) := by
  rw [extract_eq_filterMap source _ hchain]
  dsimp only
  have hp0 : partOf source s0 = none := by
    unfold partOf
    rw [if_neg (by rw [hs0]; decide), if_neg (by rw [hs0]; decide),
      if_neg (by rw [hs0]; decide)]
  have hpe : partOf source se = none := by
    unfold partOf
    rw [if_neg (by rw [hse]; decide), if_neg (by rw [hse]; decide),
      if_neg (by rw [hse]; decide)]
  simp only [List.filterMap_cons, hp0, hpe, List.filterMap_append, List.filterMap_nil,
    List.append_nil]
  rw [countNl_flatten, countNl_parts source inner hk hesc hnl]
  have ht : tileB s0.endByte (inner ++ [se]) = true := by
    have hch : tileB s0.startByte (s0 :: (inner ++ [se])) = true := hchain
    simp only [tileB, Bool.and_eq_true, decide_eq_true_eq] at hch
    exact hch.2
  obtain ⟨htInner, hstart⟩ := tile_append_single inner se s0.endByte ht
  rw [hstart, slice_tile source inner s0.endByte htInner, countNl_flatten]

/-- C7 witness: a two-line triple-quoted template with a single-line
interpolation keeps both newlines. -/
theorem C7_newline_count_witness :
    countNl (extract_content_and_interpolations srcNlWit childrenNlWit).1 =
      countNl (sliceB srcNlWit 4 11) :=
  C7_newline_count srcNlWit ⟨"string_start", 0, 4, []⟩ ⟨"string_end", 11, 14, []⟩
    [⟨"string_content", 4, 6, []⟩,
     ⟨"interpolation", 6, 9, [⟨"\x7b", 6, 7, 1, 0, 1, 1⟩, ⟨"identifier", 7, 8, 1, 1, 1, 2⟩,
       ⟨"\x7d", 8, 9, 1, 2, 1, 3⟩]⟩,
     ⟨"string_content", 9, 11, []⟩]
    rfl rfl (by decide) (by decide) (by decide) (by decide)

/-- C7 counterexample: in `t"""\x7ba [newline] +b\x7d"""` the raw interior
has one newline (inside the interpolation) but the stripped content has
none, refuting the claim as stated. -/
theorem C7_newline_count_cex :
    countNl (extract_content_and_interpolations srcNlInterp childrenNlInterp).1 = 0 ∧
      countNl (sliceB srcNlInterp 4 10) = 1 ∧
      countNl (extract_content_and_interpolations srcNlInterp childrenNlInterp).1 ≠
        countNl (sliceB srcNlInterp 4 10) := by
  decide

/-! ## Claim C8 -/

/-- C8: extracting templates from document B after document A yields
exactly the extraction of B alone — `find_template_strings` rebuilds the
`ModuleContext` from scratch on every call and returns the parser state
unchanged, so nothing leaks across documents. -/
theorem C8_context_isolation (parse : Str → PyDoc) (p : TemplateStringParser) (A B : Str) :
    (find_template_strings parse (find_template_strings parse p A).1 B).2 =
      (find_template_strings parse p B).2 := rfl

/-! ## Claim C10 -/

theorem stepTA_fst_lt (tc ab : Str) (s : Nat × Nat) : s.1 < (stepTA tc ab s).1 := by
  unfold stepTA
  split <;> simp

theorem walkGo_exit (tc ab : Str) (pos : Nat) :
    ∀ (fuel : Nat) (s : Nat × Nat), pos - s.1 ≤ fuel →
      ¬((walkGo tc ab pos fuel s).1 < pos ∧ (walkGo tc ab pos fuel s).2 < ab.length) := by
  intro fuel
  induction fuel with
  | zero =>
    intro s hfuel
    rintro ⟨h1, _⟩
    simp only [walkGo] at h1
    omega
  | succ f ih =>
    intro s hfuel
    rw [walkGo]
    split
    · rename_i hguard
      apply ih
      have hstep : s.1 < (stepTA tc ab s).1 := stepTA_fst_lt tc ab s
      omega
    · rename_i hguard
      exact hguard

/-- C10: the two-pointer position-mapping walk terminates: every loop
iteration strictly advances the stripped-content pointer, so a fuel of
`pos` iterations reaches a state where the loop guard is false and the
position map is a total function. -/
theorem C10_walk_termination (tc ab : Str) (pos fuel : Nat) (s : Nat × Nat)
    (hfuel : pos - s.1 ≤ fuel) :
    s.1 < (stepTA tc ab s).1 ∧
      ¬((walkGo tc ab pos fuel s).1 < pos ∧ (walkGo tc ab pos fuel s).2 < ab.length) :=
  ⟨stepTA_fst_lt tc ab s, walkGo_exit tc ab pos fuel s hfuel⟩

/-- C10 witness: the walk on stripped content `a\x7b\x7d` over raw
interior `a\x7bx\x7d` with position 3. -/
theorem C10_walk_termination_witness :
    (0, 0).1 < (stepTA (("a{}").data) (("a{x}").data) (0, 0)).1 ∧
      ¬((walkGo (("a{}").data) (("a{x}").data) 3 3 (0, 0)).1 < 3 ∧
        (walkGo (("a{}").data) (("a{x}").data) 3 3 (0, 0)).2 < (("a{x}").data).length) :=
  C10_walk_termination (("a{}").data) (("a{x}").data) 3 3 (0, 0) (by decide)

/-! ## Claim C9 -/

theorem convertAux_spec (ts : List Tok) :
    ∀ pl ps,
      (∀ t0 ∈ ts.head?, pl < t0.line ∨ (pl = t0.line ∧ ps ≤ t0.col)) →
      List.Chain' tokLex ts →
      (∀ t ∈ ts, t.line < 4294967296 ∧ t.col < 4294967296) →
      convertAux pl ps ts = specDeltaEncode pl ps ts ∧
        decodeAux pl ps (convertAux pl ps ts) = ts.map (fun t => (t.line, t.col)) := by
  induction ts with
  | nil => exact fun pl ps _ _ _ => ⟨rfl, rfl⟩
  | cons t ts ih =>
    intro pl ps hfirst hchain hbound
    have hrel := hfirst t (by simp)
    have hb := hbound t (List.mem_cons_self _ _)
    have hple : pl ≤ t.line := by rcases hrel with h | ⟨h, _⟩ <;> omega
    have hdl : sub32 t.line pl = t.line - pl := sub32_eq hple hb.1
    obtain ⟨hch1, hch2⟩ := List.chain'_cons'.mp hchain
    have ihts := ih t.line t.col
      (fun t0 ht0 => by
        have h2 := hch1 t0 ht0
        simpa [tokLex] using h2)
      hch2 (fun x hx => hbound x (List.mem_cons_of_mem _ hx))
    have hhead : convertAux pl ps (t :: ts) =
        ({ delta_line := t.line - pl,
           delta_start := if t.line - pl = 0 then t.col - ps else t.col,
           length := t.len, token_type := t.typ, modifiers := t.mods } : SemTok) ::
          convertAux t.line t.col ts := by
      simp only [convertAux, hdl]
      congr 1
      by_cases h0 : t.line - pl = 0
      · rw [if_pos h0, if_pos h0]
        congr 1
        refine sub32_eq ?_ hb.2
        rcases hrel with h | ⟨_, hc⟩
        · omega
        · exact hc
      · rw [if_neg h0, if_neg h0]
    have hspec : specDeltaEncode pl ps (t :: ts) =
        ({ delta_line := t.line - pl,
           delta_start := if t.line - pl = 0 then t.col - ps else t.col,
           length := t.len, token_type := t.typ, modifiers := t.mods } : SemTok) ::
          specDeltaEncode t.line t.col ts := by
      simp only [specDeltaEncode]
      congr 1
      by_cases h0 : t.line = pl
      · rw [if_pos h0, if_pos (by omega : t.line - pl = 0)]
      · rw [if_neg h0, if_neg (by omega : ¬(t.line - pl = 0))]
    refine ⟨by rw [hhead, hspec, ihts.1], ?_⟩
    rw [hhead]
    simp only [decodeAux, List.map_cons]
    by_cases h0 : t.line - pl = 0
    · have hcle : ps ≤ t.col := by
        rcases hrel with h | ⟨_, hc⟩
        · omega
        · exact hc
      rw [if_pos h0]
      simp only [if_pos h0]
      have hl : pl + (t.line - pl) = t.line := by omega
      have hc : ps + (t.col - ps) = t.col := by omega
      rw [hl, hc, ihts.2]
    · rw [if_neg h0]
      simp only [if_neg h0]
      have hl : pl + (t.line - pl) = t.line := by omega
      rw [hl, ihts.2]

/-- C9: for a token list sorted by (line, column), the delta encoder
emits exactly the spec's deltas (line difference; column difference on
the same line, absolute column on a new line), and cumulative decoding of
the emitted quintuples recovers every token's absolute line and column. -/
theorem C9_delta_encoding (ts : List Tok)
    (hchain : List.Chain' tokLex ts)
    (hbound : ∀ t ∈ ts, t.line < 4294967296 ∧ t.col < 4294967296) :
    convert_to_semantic_tokens ts = specDeltaEncode 0 0 ts ∧
      decodeAux 0 0 (convert_to_semantic_tokens ts) = ts.map (fun t => (t.line, t.col)) := by
  unfold convert_to_semantic_tokens
  refine convertAux_spec ts 0 0 (fun t0 _ => ?_) hchain hbound
  rcases Nat.eq_zero_or_pos t0.line with h | h
  · exact Or.inr ⟨h.symm, Nat.zero_le _⟩
  · exact Or.inl h

/-- C9 witness: a three-token sorted stream round-trips through the
delta encoding. -/
theorem C9_delta_encoding_witness :
    convert_to_semantic_tokens [⟨0, 5, 3, 14, 0⟩, ⟨2, 1, 4, 8, 0⟩, ⟨2, 3, 1, 9, 0⟩] =
      specDeltaEncode 0 0 [⟨0, 5, 3, 14, 0⟩, ⟨2, 1, 4, 8, 0⟩, ⟨2, 3, 1, 9, 0⟩] ∧
      decodeAux 0 0 (convert_to_semantic_tokens
          [⟨0, 5, 3, 14, 0⟩, ⟨2, 1, 4, 8, 0⟩, ⟨2, 3, 1, 9, 0⟩]) =
        List.map (fun t => (t.line, t.col))
          [⟨0, 5, 3, 14, 0⟩, ⟨2, 1, 4, 8, 0⟩, (⟨2, 3, 1, 9, 0⟩ : Tok)] :=
  C9_delta_encoding [⟨0, 5, 3, 14, 0⟩, ⟨2, 1, 4, 8, 0⟩, ⟨2, 3, 1, 9, 0⟩]
    (List.Chain'.cons (by decide) (List.Chain'.cons (by decide) (List.chain'_singleton _)))
    (by decide)

/-! ## Claim C2 -/

theorem findStringsAux_eq (source : Str) (ctx : ModuleContext) (ms : List StrMatch) :
    ∀ seen, (∀ m ∈ ms, m.node.id ∉ seen) →
      List.Pairwise (fun a b => a.node.id ≠ b.node.id) ms →
      findStringsAux source ctx seen ms =
        (ms.filter (passesFilter source)).filterMap (extract_template_info source ctx) := by
  induction ms with
  | nil =>
    intro seen _ _
    rfl
  | cons m ms ih =>
    intro seen hseen hpw
    obtain ⟨hhead, htail⟩ := List.pairwise_cons.mp hpw
    have hmem : seen.contains m.node.id = false := by
      by_contra hcon
      rw [Bool.not_eq_false] at hcon
      exact hseen m (List.mem_cons_self _ _) (List.mem_of_elem_eq_true hcon)
    have hseen' : ∀ m' ∈ ms, m'.node.id ∉ seen :=
      fun m' hm' => hseen m' (List.mem_cons_of_mem _ hm')
    have hseenIns : ∀ m' ∈ ms, m'.node.id ∉ m.node.id :: seen := by
      intro m' hm'
      intro hcon
      rcases List.mem_cons.mp hcon with h | h
      · exact hhead m' hm' h.symm
      · exact hseen' m' hm' h
    rw [List.filter_cons]
    cases hst : stringStartChild m.node with
    | none =>
      have hpf : passesFilter source m = false := by
        simp [passesFilter, hst]
      simp only [findStringsAux, hmem, Bool.false_eq_true, if_false, hst, hpf]
      exact ih seen hseen' htail
    | some st =>
      by_cases hsw : startsWithT (sliceB source st.startByte st.endByte) = true
      · have hpf : passesFilter source m = true := by
          simp [passesFilter, hst, hsw]
        cases hei : extract_template_info source ctx m with
        | some info =>
          simp only [findStringsAux, hmem, Bool.false_eq_true, if_false, hst, hsw,
            if_true, hei, hpf, List.filterMap_cons]
          rw [ih (m.node.id :: seen) hseenIns htail]
        | none =>
          simp only [findStringsAux, hmem, Bool.false_eq_true, if_false, hst, hsw,
            if_true, hei, hpf, List.filterMap_cons]
          rw [ih (m.node.id :: seen) hseenIns htail]
      · have hsw' : startsWithT (sliceB source st.startByte st.endByte) = false :=
          Bool.not_eq_true _ ▸ by simpa using hsw
        have hpf : passesFilter source m = false := by
          simp [passesFilter, hst, hsw']
        simp only [findStringsAux, hmem, Bool.false_eq_true, if_false, hst, hsw',
          hpf]
        exact ih seen hseen' htail

/-- C2 (amended): a string-literal match is kept iff the opening
delimiter's text STARTS WITH `t` or `T` (Rust `starts_with`), not merely
contains `t`: over matches with distinct node ids the extractor output is
exactly the matches passing `passesFilter`, in order.  An opener such as
`rt"` contains `t` but is discarded (see the counterexample). -/
theorem C2_template_filter (source : Str) (ctx : ModuleContext) (ms : List StrMatch)
    (hids : List.Pairwise (fun a b => a.node.id ≠ b.node.id) ms) :
    find_strings_with_query source ctx ms =
      (ms.filter (passesFilter source)).filterMap (extract_template_info source ctx) :=
  findStringsAux_eq source ctx ms [] (by simp) hids

/-- C2 witness: of the two literals `t"x"` and `rt"x"` only the first
becomes a template record. -/
theorem C2_template_filter_witness :
    find_strings_with_query srcTwo {} matchesTwo =
      (matchesTwo.filter (passesFilter srcTwo)).filterMap
        (extract_template_info srcTwo {}) :=
  C2_template_filter srcTwo {} matchesTwo
    (List.Pairwise.cons (by intro b hb; fin_cases hb; decide)
      (List.pairwise_singleton _ _))

/-- C2 counterexample: the opener `rt"` of `rt"x"` contains `t`
case-insensitively, yet the extractor discards the literal, so the
claimed contains-`t` criterion is not the implemented one. -/
theorem C2_template_filter_cex :
    claimedTemplateFilter (sliceB srcRT 0 3) = true ∧
      find_strings_with_query srcRT {} [matchRT] = [] := by
  constructor
  · decide
  · decide

/-! ## Claim C4 -/

/-- C4 (amended): for a template whose language has no registered grammar,
highlighting fails and the server emits exactly one token of the macro
class (type index 14) at the template's start, with length
`end_column - start_column`; for a SINGLE-LINE template this token covers
exactly the template's source range.  For a multi-line template the single
first-line token cannot cover the range (see the counterexample). -/
theorem C4_unsupported_language (sqlFeature : Bool) (events : List HLEvent) (text : Str)
    (t : TemplateStringInfo) (lang : Str)
    (hlang : t.language = some lang)
    (hunsup : (langConfigKeys sqlFeature).contains (toLowerStr lang) = false)
    (hline : t.loc.start_line = t.loc.end_line)
    (hc1 : 1 ≤ t.loc.start_column) (hc2 : t.loc.start_column ≤ t.loc.end_column)
    (hbound : t.loc.end_column - 1 < 4294967296) :
    perTemplateTokens sqlFeature events text t =
      [{ line := t.loc.start_line - 1, col := t.loc.start_column - 1,
         len := t.loc.end_column - t.loc.start_column,
         typ := TOKEN_TYPE_MACRO, mods := 0 }] ∧
      coversRange
        { line := t.loc.start_line - 1, col := t.loc.start_column - 1,
          len := t.loc.end_column - t.loc.start_column,
          typ := TOKEN_TYPE_MACRO, mods := 0 } t.loc := by
  have herr : highlight_template sqlFeature events t = .error "Unsupported language" := by
    unfold highlight_template
    rw [hlang]
    simp only [hunsup, Bool.false_eq_true, if_false]
  have hsub : sub32 (t.loc.end_column - 1) (t.loc.start_column - 1) =
      t.loc.end_column - t.loc.start_column := by
    rw [sub32_eq (by omega) (by omega)]
    omega
  constructor
  · unfold perTemplateTokens
    rw [hlang, herr, hsub]
  · unfold coversRange
    refine ⟨rfl, rfl, by rw [hline], ?_⟩
    simp only
    omega

/-- C4 witness: an unsupported-language single-line template at
line 2, columns 3 to 10, degrades to the single covering macro token. -/
theorem C4_unsupported_language_witness :
    perTemplateTokens false [] [] tmplUnsupSingle =
      [{ line := tmplUnsupSingle.loc.start_line - 1,
         col := tmplUnsupSingle.loc.start_column - 1,
         len := tmplUnsupSingle.loc.end_column - tmplUnsupSingle.loc.start_column,
         typ := TOKEN_TYPE_MACRO, mods := 0 }] ∧
      coversRange
        { line := tmplUnsupSingle.loc.start_line - 1,
          col := tmplUnsupSingle.loc.start_column - 1,
          len := tmplUnsupSingle.loc.end_column - tmplUnsupSingle.loc.start_column,
          typ := TOKEN_TYPE_MACRO, mods := 0 } tmplUnsupSingle.loc :=
  C4_unsupported_language false [] [] tmplUnsupSingle (("xml").data) rfl (by decide)
    rfl (by decide) (by decide) (by decide)

/-- C4 counterexample: the multi-line unsupported-language template
spanning lines 1-3 still gets exactly one macro token, but that token
sits on the first line only and does not cover the template's source
range, refuting the coverage part of the claim. -/
theorem C4_unsupported_language_cex :
    perTemplateTokens false [] [] tmplUnsup =
      [{ line := 0, col := 0, len := 4, typ := 14, mods := 0 }] ∧
      ¬ coversRange { line := 0, col := 0, len := 4, typ := 14, mods := 0 } tmplUnsup.loc := by
  constructor
  · decide
  · unfold coversRange
    decide

/-! ## Claim C5 -/

theorem sentinelRanges_cons_default (c : Char) (rest : Str) (i : Nat)
    (hg : ∀ r, c = '{' → rest = '}' :: r → False) :
    sentinelRanges (c :: rest) i = sentinelRanges rest (i + 1) := by
  rw [sentinelRanges.eq_def]
  split
  · rename_i i2 r2 heq
    injection heq with hc hr
    exact (hg r2 hc hr).elim
  · rename_i i2 x r2 heq
    injection heq with hc hr
    subst hr
    rfl
  · rename_i heq
    exact absurd heq (by simp)

theorem mem_sentinelRanges (l : Str) (i : Nat) :
    ∀ p, l[p]? = some '{' → l[p + 1]? = some '}' →
      ({ start_byte := i + p, end_byte := i + p + 2,
         highlight_name := "variable.parameter",
         highlight_index := get_highlight_index "variable.parameter" } : HighlightedRange) ∈
        sentinelRanges l i := by
  induction l, i using sentinelRanges.induct with
  | case1 rest i ih =>
    intro p h1 h2
    match p with
    | 0 => simp [sentinelRanges]
    | 1 => simp at h1
    | q + 2 =>
      simp only [List.getElem?_cons_succ] at h1 h2
      have e : i + (q + 2) = (i + 2) + q := by omega
      rw [e]
      exact List.mem_cons_of_mem _ (ih q h1 h2)
  | case2 c rest i hg ih =>
    intro p h1 h2
    match p with
    | 0 =>
      simp only [List.getElem?_cons_zero, Option.some_inj] at h1
      subst h1
      simp only [List.getElem?_cons_succ] at h2
      match rest, h2 with
      | x :: rest', h2 =>
        simp only [List.getElem?_cons_zero, Option.some_inj] at h2
        subst h2
        exact (hg rest' rfl rfl).elim
    | q + 1 =>
      simp only [List.getElem?_cons_succ] at h1 h2
      have e : i + (q + 1) = (i + 1) + q := by omega
      rw [e, sentinelRanges_cons_default c rest i hg]
      exact ih q h1 h2
  | case3 i =>
    intro p h1 _
    simp at h1

theorem rangeLE_trans : ∀ (a b c : HighlightedRange),
    rangeLE a b = true → rangeLE b c = true → rangeLE a c = true := by
  intro a b c h1 h2
  simp only [rangeLE, decide_eq_true_eq] at *
  omega

theorem rangeLE_total : ∀ (a b : HighlightedRange),
    (rangeLE a b || rangeLE b a) = true := by
  intro a b
  simp only [rangeLE, Bool.or_eq_true, decide_eq_true_eq]
  omega

/-- C5: for a supported-language template, the highlighter's output
contains, for every occurrence of the two-byte sentinel in the stripped
content, a `variable.parameter` span covering exactly those two bytes,
and the whole returned span sequence is sorted by `start_byte` in
non-decreasing order. -/
theorem C5_sentinel_spans (sqlFeature : Bool) (events : List HLEvent)
    (t : TemplateStringInfo) (lang : Str) (p : Nat)
    (hlang : t.language = some lang)
    (hsup : (langConfigKeys sqlFeature).contains (toLowerStr lang) = true)
    (h1 : t.content[p]? = some '{') (h2 : t.content[p + 1]? = some '}') :
    ∃ rs, highlight_template sqlFeature events t = .ok rs ∧
      ({ start_byte := p, end_byte := p + 2,
         highlight_name := "variable.parameter",
         highlight_index := get_highlight_index "variable.parameter" } : HighlightedRange) ∈ rs ∧
      List.Pairwise (fun a b => a.start_byte ≤ b.start_byte) rs := by
  refine ⟨(processEvents events [] ++ sentinelRanges t.content 0).mergeSort rangeLE,
    ?_, ?_, ?_⟩
  · unfold highlight_template
    rw [hlang]
    simp only [hsup, if_true]
  · rw [List.mem_mergeSort]
    refine List.mem_append_right _ ?_
    have := mem_sentinelRanges t.content 0 p h1 h2
    simpa using this
  · have hs := List.sorted_mergeSort rangeLE_trans rangeLE_total
      (processEvents events [] ++ sentinelRanges t.content 0)
    exact hs.imp (fun h => by simpa [rangeLE] using h)

/-- C5 witness: the html template with content `a\x7b\x7d` has the
sentinel span at bytes 1-3 in a sorted result. -/
theorem C5_sentinel_spans_witness :
    ∃ rs, highlight_template false [] tmplSent = .ok rs ∧
      ({ start_byte := 1, end_byte := 1 + 2,
         highlight_name := "variable.parameter",
         highlight_index := get_highlight_index "variable.parameter" } : HighlightedRange) ∈ rs ∧
      List.Pairwise (fun a b => a.start_byte ≤ b.start_byte) rs :=
  C5_sentinel_spans false [] tmplSent (("html").data) 1 rfl (by decide) (by decide)
    (by decide)

/-! ## Claim C6 -/

theorem scanCloseGo_ge : ∀ (l : Str) (e : Nat), e ≤ scanCloseGo l e := by
  intro l
  induction l with
  | nil => intro e; exact le_rfl
  | cons c rest ih =>
    intro e
    unfold scanCloseGo
    split
    · exact le_rfl
    · exact le_trans (Nat.le_succ e) (ih (e + 1))

theorem scanClose_ge (ab : Str) (e : Nat) : e ≤ scanClose ab e := scanCloseGo_ge _ _

theorem stepTA_snd_ge (tc ab : Str) (s : Nat × Nat) : s.2 ≤ (stepTA tc ab s).2 := by
  unfold stepTA
  split
  · dsimp only
    split
    · have h1 := scanClose_ge ab (s.2 + 1)
      split <;> omega
    · exact le_rfl
  · exact Nat.le_succ _

theorem walkGo_snd_ge (tc ab : Str) (pos : Nat) :
    ∀ (fuel : Nat) (s : Nat × Nat), s.2 ≤ (walkGo tc ab pos fuel s).2 := by
  intro fuel
  induction fuel with
  | zero => intro s; exact le_rfl
  | succ f ih =>
    intro s
    rw [walkGo]
    split
    · exact le_trans (stepTA_snd_ge tc ab s) (ih (stepTA tc ab s))
    · exact le_rfl

theorem walkGo_snd_mono (tc ab : Str) (p1 p2 : Nat) (hp : p1 ≤ p2) :
    ∀ (f1 f2 : Nat) (s : Nat × Nat), p1 - s.1 ≤ f1 → p2 - s.1 ≤ f2 →
      (walkGo tc ab p1 f1 s).2 ≤ (walkGo tc ab p2 f2 s).2 := by
  intro f1
  induction f1 with
  | zero =>
    intro f2 s h1 h2
    simp only [walkGo]
    exact walkGo_snd_ge tc ab p2 f2 s
  | succ f ih =>
    intro f2 s h1 h2
    rw [walkGo]
    split
    · rename_i hguard
      obtain ⟨hg1, hg2⟩ := hguard
      cases f2 with
      | zero =>
        exfalso
        omega
      | succ f2 =>
        rw [walkGo, if_pos ⟨lt_of_lt_of_le hg1 hp, hg2⟩]
        have hstep := stepTA_fst_lt tc ab s
        exact ih f2 (stepTA tc ab s) (by omega) (by omega)
    · exact walkGo_snd_ge tc ab p2 f2 s

theorem pairLe_trans {a b c : Nat × Nat} (h1 : pairLe a b) (h2 : pairLe b c) :
    pairLe a c := by
  obtain ⟨a1, a2⟩ := a
  obtain ⟨b1, b2⟩ := b
  obtain ⟨c1, c2⟩ := c
  simp only [pairLe] at *
  omega

theorem posScan_ge (ab : Str) : ∀ (n l c : Nat), pairLe (l, c) (posScan ab n l c) := by
  induction ab with
  | nil =>
    intro n l c
    cases n <;> simp [posScan, pairLe]
  | cons ch rest ih =>
    intro n l c
    cases n with
    | zero => simp [posScan, pairLe]
    | succ n =>
      by_cases hch : ch = '\n'
      · simp only [posScan, if_pos hch]
        refine pairLe_trans (b := (l + 1, 0)) ?_ (ih n (l + 1) 0)
        simp [pairLe]
      · simp only [posScan, if_neg hch]
        refine pairLe_trans (b := (l, c + 1)) ?_ (ih n l (c + 1))
        simp [pairLe]

theorem posScan_mono (ab : Str) : ∀ (n m l c : Nat), n ≤ m →
    pairLe (posScan ab n l c) (posScan ab m l c) := by
  induction ab with
  | nil =>
    intro n m l c _
    cases n <;> cases m <;> simp [posScan, pairLe]
  | cons ch rest ih =>
    intro n m l c hnm
    cases n with
    | zero =>
      simp only [posScan]
      exact posScan_ge (ch :: rest) m l c
    | succ n =>
      cases m with
      | zero => omega
      | succ m =>
        by_cases hch : ch = '\n'
        · simp only [posScan, if_pos hch]
          exact ih n m (l + 1) 0 (by omega)
        · simp only [posScan, if_neg hch]
          exact ih n m l (c + 1) (by omega)

theorem mapPos_mono (tc ab : Str) (p1 p2 l c pl : Nat) (h : p1 ≤ p2) :
    pairLe (map_template_position_to_document tc ab p1 l c pl)
      (map_template_position_to_document tc ab p2 l c pl) := by
  unfold map_template_position_to_document
  dsimp only
  have ha := walkGo_snd_mono tc ab p1 p2 h p1 p2 (0, 0) (by omega) (by omega)
  exact posScan_mono ab _ _ l (c + pl) ha

theorem mapRangeTok_position (t : TemplateStringInfo) (r : HighlightedRange) (tok : Tok)
    (h : mapRangeTok t r = some tok) :
    tok.line = (map_template_position_to_document t.content (actualContent t) r.start_byte
        (t.loc.start_line - 1) (t.loc.start_column - 1)
        (calculate_template_content_offset t.raw_content)).1 ∧
      tok.col = (map_template_position_to_document t.content (actualContent t) r.start_byte
        (t.loc.start_line - 1) (t.loc.start_column - 1)
        (calculate_template_content_offset t.raw_content)).2 := by
  unfold mapRangeTok at h
  by_cases h1 : r.highlight_name = "variable.parameter"
  · rw [if_pos h1] at h
    exact absurd h (by simp)
  · rw [if_neg h1] at h
    dsimp only at h
    by_cases h2 : 0 < r.end_byte - r.start_byte
    · rw [if_pos h2] at h
      injection h with h
      rw [← h]
      exact ⟨rfl, rfl⟩
    · rw [if_neg h2] at h
      exact absurd h (by simp)

/-- C6 (amended): the projector emits the interpolation tokens first and
then the embedded-span tokens; given spans sorted by `start_byte`, the
embedded-span tokens are in non-decreasing (line, column) order.  The
FULL output need not be ordered (the interpolation tokens come first
regardless of position — see the counterexample); the server restores
global order by sorting before delta encoding. -/
theorem C6_projection_order (ranges : List HighlightedRange) (t : TemplateStringInfo)
    (hsorted : List.Pairwise (fun a b => a.start_byte ≤ b.start_byte) ranges) :
    to_lsp_tokens ranges t = exprTokens t ++ mappedSpanTokens ranges t ∧
      List.Pairwise tokLex (mappedSpanTokens ranges t) := by
  refine ⟨rfl, ?_⟩
  unfold mappedSpanTokens
  rw [List.pairwise_filterMap]
  refine hsorted.imp ?_
  intro a b hab x hx y hy
  have hxa := mapRangeTok_position t a x (Option.mem_def.mp hx)
  have hyb := mapRangeTok_position t b y (Option.mem_def.mp hy)
  have hmono := mapPos_mono t.content (actualContent t) a.start_byte b.start_byte
    (t.loc.start_line - 1) (t.loc.start_column - 1)
    (calculate_template_content_offset t.raw_content) hab
  rcases hmono with hlt | ⟨heq, hle⟩
  · exact Or.inl (by rw [hxa.1, hyb.1]; exact hlt)
  · exact Or.inr ⟨by rw [hxa.1, hyb.1]; exact heq, by rw [hxa.2, hyb.2]; exact hle⟩

/-- C6 witness: a single sorted span on `tmplSent` projects to an ordered
embedded-token list after the interpolation tokens. -/
theorem C6_projection_order_witness :
    to_lsp_tokens [rangeFrag] tmplSent =
        exprTokens tmplSent ++ mappedSpanTokens [rangeFrag] tmplSent ∧
      List.Pairwise tokLex (mappedSpanTokens [rangeFrag] tmplSent) :=
  C6_projection_order [rangeFrag] tmplSent (List.pairwise_singleton _ _)

/-- C6 counterexample: with the sorted span list `[rangeFrag]` the
projector's output puts the interpolation token (line 0, column 4) BEFORE
the mapped fragment token (line 0, column 2), so the output is not in
non-decreasing (line, column) order as claimed. -/
theorem C6_projection_order_cex :
    List.Pairwise (fun a b => a.start_byte ≤ b.start_byte) [rangeFrag] ∧
      to_lsp_tokens [rangeFrag] tmplSent =
        [{ line := 0, col := 4, len := 1, typ := 8, mods := 0 },
         { line := 0, col := 2, len := 1, typ := 18, mods := 0 }] ∧
      ¬ tokLex { line := 0, col := 4, len := 1, typ := 8, mods := 0 }
          { line := 0, col := 2, len := 1, typ := 18, mods := 0 } :=
  ⟨List.pairwise_singleton _ _, by decide, by decide⟩

/-! ## Claim C3 -/

theorem annText_eq (A T tag : Str) :
    annText A T tag = A ++ '[' :: (T ++ ',' :: ' ' :: '"' :: (tag ++ '"' :: ']' :: [])) := by
  simp [annText]

theorem annText_eq2 (A T tag : Str) :
    annText A T tag = (A ++ '[' :: (T ++ ',' :: ' ' :: '"' :: (tag ++ ['"']))) ++ [']'] := by
  simp [annText]

theorem findCharIdx_append_of_not_mem {c : Char} {A : Str} (h : c ∉ A) (r : Str) :
    findCharIdx c (A ++ c :: r) = some A.length := by
  induction A with
  | nil => simp [findCharIdx]
  | cons a A ih =>
    have ha : a ≠ c := fun he => h (he ▸ List.mem_cons_self _ _)
    simp only [List.cons_append, findCharIdx, if_neg ha, List.append_eq]
    rw [ih (fun hm => h (List.mem_cons_of_mem _ hm))]
    rfl

theorem rfindCharIdx_last (s : Str) : rfindCharIdx ']' (s ++ [']']) = some s.length := by
  unfold rfindCharIdx
  have h1 : (s ++ [']']).reverse = ']' :: s.reverse := by simp
  rw [h1]
  simp [findCharIdx, List.length_append]

theorem splitOnChar_ne_nil (c : Char) (l : Str) : splitOnChar c l ≠ [] := by
  cases l with
  | nil => simp [splitOnChar]
  | cons a l =>
    simp only [splitOnChar]
    split
    · simp
    · split <;> simp

theorem splitOnChar_of_not_mem {c : Char} {s : Str} (h : c ∉ s) : splitOnChar c s = [s] := by
  induction s with
  | nil => rfl
  | cons a s ih =>
    have ha : a ≠ c := fun he => h (he ▸ List.mem_cons_self _ _)
    have ihs := ih (fun hm => h (List.mem_cons_of_mem _ hm))
    simp only [splitOnChar, ihs, if_neg ha]

theorem splitOnChar_append {c : Char} {s : Str} (h : c ∉ s) (r : Str) :
    splitOnChar c (s ++ c :: r) = s :: splitOnChar c r := by
  induction s with
  | nil =>
    obtain ⟨h0, t0, heq⟩ : ∃ h0 t0, splitOnChar c r = h0 :: t0 := by
      cases hr : splitOnChar c r with
      | nil => exact absurd hr (splitOnChar_ne_nil c r)
      | cons h0 t0 => exact ⟨h0, t0, rfl⟩
    simp [splitOnChar, heq]
  | cons a s ih =>
    have ha : a ≠ c := fun he => h (he ▸ List.mem_cons_self _ _)
    have ihs := ih (fun hm => h (List.mem_cons_of_mem _ hm))
    simp only [List.cons_append, splitOnChar, List.append_eq, ihs, if_neg ha]

theorem dropWhile_eq_self_of_neg {p : Char → Bool} {l : Str}
    (h : ∀ c ∈ l, p c = false) : l.dropWhile p = l := by
  cases l with
  | nil => rfl
  | cons a l =>
    exact List.dropWhile_cons_of_neg (by simp [h a (List.mem_cons_self _ _)])

theorem trimStr_space_quoted (tag : Str) :
    trimStr (' ' :: '"' :: (tag ++ ['"'])) = '"' :: (tag ++ ['"']) := by
  unfold trimStr
  rw [List.dropWhile_cons_of_pos (by decide), List.dropWhile_cons_of_neg (by decide)]
  have h1 : ('"' :: (tag ++ ['"'])).reverse = '"' :: (tag.reverse ++ ['"']) := by simp
  rw [h1, List.dropWhile_cons_of_neg (by decide), ← h1, List.reverse_reverse]

theorem trimMatchesQ_quoted (tag : Str) (h : ∀ c ∈ tag, isQuote c = false) :
    trimMatchesQ ('"' :: (tag ++ ['"'])) = tag := by
  unfold trimMatchesQ
  rw [List.dropWhile_cons_of_pos (by decide)]
  cases tag with
  | nil => decide
  | cons d tag' =>
    have hd : isQuote d = false := h d (List.mem_cons_self _ _)
    rw [List.cons_append, List.dropWhile_cons_of_neg (by simp [hd])]
    have h1 : (d :: (tag' ++ ['"'])).reverse = '"' :: (d :: tag').reverse := by simp
    rw [h1, List.dropWhile_cons_of_pos (by decide)]
    have h2 : (d :: tag').reverse.dropWhile isQuote = (d :: tag').reverse := by
      refine dropWhile_eq_self_of_neg ?_
      intro x hx
      exact h x (List.mem_reverse.mp hx)
    rw [h2, List.reverse_reverse]

theorem isAnnotatedName_of (ctx : ModuleContext) (A : Str)
    (hA : A = ("Annotated").data ∨
      lookupA ctx.imports A = some (("typing.Annotated").data)) :
    isAnnotatedName ctx A = true := by
  unfold isAnnotatedName
  rcases hA with h | h
  · simp [h]
  · rw [h]
    simp

theorem isTemplateName_of (ctx : ModuleContext) (T : Str)
    (hT : T = ("Template").data ∨
      lookupA ctx.imports T = some (("string.templatelib.Template").data)) :
    isTemplateName ctx T = true := by
  unfold isTemplateName
  rcases hT with h | h
  · simp [h]
  · rw [h]
    simp

theorem drop_append_cons (A : Str) (c : Char) (r : Str) :
    (A ++ c :: r).drop (A.length + 1) = r := by
  induction A with
  | nil => simp
  | cons a A ih =>
    rw [List.cons_append, List.length_cons, List.drop_succ_cons]
    exact ih

theorem annText_args (A T tag : Str) :
    sliceB (annText A T tag) (A.length + 1)
        ((A ++ '[' :: (T ++ ',' :: ' ' :: '"' :: (tag ++ ['"']))).length) =
      T ++ ',' :: ' ' :: '"' :: (tag ++ ['"']) := by
  unfold sliceB
  rw [annText_eq]
  rw [drop_append_cons]
  have hK : (T ++ ',' :: ' ' :: '"' :: (tag ++ '"' :: ']' :: [])) =
      (T ++ ',' :: ' ' :: '"' :: (tag ++ ['"'])) ++ [']'] := by
    simp
  have hM : (A ++ '[' :: (T ++ ',' :: ' ' :: '"' :: (tag ++ ['"']))).length -
      (A.length + 1) = (T ++ ',' :: ' ' :: '"' :: (tag ++ ['"'])).length := by
    simp only [List.length_append, List.length_cons]
    omega
  rw [hK, hM, List.take_left]

theorem annotTextualPath_eval (source : Str) (ctx : ModuleContext) (sub : PNode)
    (A T tag : Str)
    (htext : nodeText source sub = annText A T tag)
    (hA : A = ("Annotated").data ∨
      lookupA ctx.imports A = some (("typing.Annotated").data))
    (hT : T = ("Template").data ∨
      lookupA ctx.imports T = some (("string.templatelib.Template").data))
    (hAbr : '[' ∉ A) (hTc : ',' ∉ T) (hTtrim : trimStr T = T)
    (htagc : ',' ∉ tag) (htagq : ∀ c ∈ tag, isQuote c = false) :
    annotTextualPath source ctx sub = some tag := by
  have hfind : findCharIdx '[' (annText A T tag) = some A.length := by
    rw [annText_eq]
    exact findCharIdx_append_of_not_mem hAbr _
  have htake : (annText A T tag).take A.length = A := by
    rw [annText_eq]
    exact List.take_left A _
  have hrfind : rfindCharIdx ']' (annText A T tag) =
      some ((A ++ '[' :: (T ++ ',' :: ' ' :: '"' :: (tag ++ ['"']))).length) := by
    rw [annText_eq2]
    exact rfindCharIdx_last _
  have hremNotMem : ',' ∉ (' ' :: '"' :: (tag ++ ['"'])) := by
    intro hm
    simp only [List.mem_cons, List.mem_append, List.mem_singleton] at hm
    rcases hm with h | h | h | h
    · exact absurd h (by decide)
    · exact absurd h (by decide)
    · exact htagc h
    · exact absurd h (by decide)
  have hsplit : splitOnChar ',' (T ++ ',' :: ' ' :: '"' :: (tag ++ ['"'])) =
      [T, ' ' :: '"' :: (tag ++ ['"'])] := by
    rw [splitOnChar_append hTc, splitOnChar_of_not_mem hremNotMem]
  unfold annotTextualPath
  rw [htext]
  dsimp only
  rw [hfind]
  dsimp only
  rw [htake, isAnnotatedName_of ctx A hA, if_pos rfl, hrfind]
  dsimp only
  rw [annText_args, hsplit]
  dsimp only [List.map_cons, List.map_nil]
  rw [hTtrim, trimStr_space_quoted]
  rw [if_pos (by simp)]
  dsimp only [List.getD_cons_zero, List.getD_cons_succ]
  rw [isTemplateName_of ctx T hT, if_pos rfl, trimMatchesQ_quoted tag htagq]

/-- C3: for a template whose declaring variable carries an annotation of
the shape `A[T, "tag"]` — with `A` resolving directly or through the
imports map to `typing.Annotated`, `T` resolving to
`string.templatelib.Template`, and `tag` a comma-free, quote-free
language tag — language resolution returns exactly the string literal in
the second bracket slot.  Aliased forms such as `Ann[Tmpl, "html"]`
resolve through the imports map. -/
theorem C3_annotated_template_tag (source : Str) (ctx : ModuleContext) (m : StrMatch)
    (node : PNode) (A T tag : Str)
    (hm : m.typeAnnot = some node)
    (hkind : node.kind = "type")
    (htext : nodeText source node = annText A T tag)
    (hA : A = ("Annotated").data ∨
      lookupA ctx.imports A = some (("typing.Annotated").data))
    (hT : T = ("Template").data ∨
      lookupA ctx.imports T = some (("string.templatelib.Template").data))
    (hAbr : '[' ∉ A) (hTc : ',' ∉ T) (hTtrim : trimStr T = T)
    (htagc : ',' ∉ tag) (htagq : ∀ c ∈ tag, isQuote c = false) :
    resolveLanguage source ctx m = some tag := by
  have hextract : extract_language_from_annot source ctx node = some tag := by
    unfold extract_language_from_annot
    have hns : ¬(node.kind = "subscript") := by
      rw [hkind]
      decide
    have hcon1 : (nodeText source node).contains '[' = true := by
      rw [htext]
      refine List.elem_eq_true_of_mem ?_
      rw [annText_eq]
      exact List.mem_append_right _ (List.mem_cons_self _ _)
    have hcon2 : (nodeText source node).contains ']' = true := by
      rw [htext]
      refine List.elem_eq_true_of_mem ?_
      rw [annText_eq2]
      exact List.mem_append_right _ (List.mem_cons_self _ _)
    rw [if_neg hns, if_pos hkind]
    dsimp only
    rw [hcon1, hcon2]
    have hred : (if (true && true) = true then some node
        else List.find? (fun c => c.kind == "subscript") node.children) = some node := rfl
    rw [hred]
    dsimp only
    rw [if_pos hkind,
      annotTextualPath_eval source ctx node A T tag htext hA hT hAbr hTc hTtrim htagc htagq]
  unfold resolveLanguage
  rw [hm]
  dsimp only
  rw [hextract]

/-- C3 witness: `Ann[Tmpl, "html"]` with `Ann` imported as
`typing.Annotated` and `Tmpl` as `string.templatelib.Template` resolves
to `html`. -/
theorem C3_annotated_template_tag_witness :
    resolveLanguage (annText (("Ann").data) (("Tmpl").data) (("html").data))
      { imports := [((("Ann").data), (("typing.Annotated").data)),
                    ((("Tmpl").data), (("string.templatelib.Template").data))] }
      { node := { id := 0, startByte := 0, endByte := 0, startRow := 0, startCol := 0,
                  endRow := 0, endCol := 0, children := [], parent := none }
        varName := none
        typeAnnot := some (PNode.node "type" none 0
          (annText (("Ann").data) (("Tmpl").data) (("html").data)).length [])
        funcName := none } = some (("html").data) :=
  C3_annotated_template_tag
    (annText (("Ann").data) (("Tmpl").data) (("html").data))
    { imports := [((("Ann").data), (("typing.Annotated").data)),
                  ((("Tmpl").data), (("string.templatelib.Template").data))] }
    _ _ (("Ann").data) (("Tmpl").data) (("html").data)
    rfl rfl (by simp [nodeText, sliceB, PNode.startByte, PNode.endByte])
    (Or.inr (by decide)) (Or.inr (by decide))
    (by decide) (by decide) (by decide) (by decide) (by decide)
